import Mathlib

/-!
# Sliding puzzle (Game of Fifteen, `dim x dim`)

A shallow embedding of `src/slidingpuzzle.c`.

* The C globals `last_row`, `last_col`, `num_tiles`, `empty_tile_index`, `dim`
  and `board` become the fields of `State`; every C function that touches
  them takes the state and returns the new one next to its C return value.
* `int board[DIM_MAX][DIM_MAX]` is the flat list of its `DIM_MAX * DIM_MAX`
  ints in memory order: `board[r][c]` lives at offset `r * DIM_MAX + c`.
* `int` is `Int`.  For `dim` in `[2,10]` every intermediate value of the
  engine is bounded by `100` in absolute value, except the four neighbour
  indices of `valid_move`, which are computed from `empty_tile_index`; those
  are reduced to 32 bits (`wrap32`).
* C division truncates: `/` is `Int.tdiv`, `%` is `Int.tmod`.
* A `for` loop with trip count `n` is a recursion on `n`.
* The file written by `save` is the list of the ints written, in order.
-/

namespace SlidingPuzzle

/-! ## Constants -/

def DIM_MIN : Int := 2
def DIM_MAX : Int := 10

def EMPTY_SPACE : Int := -1
def ONE_OFFSET : Int := 2
def TWO_OFFSET : Int := 3

/-! ## Game state -/

/-- The globals of the program. -/
structure State where
  last_row : Int
  last_col : Int
  num_tiles : Int
  empty_tile_index : Int
  dim : Int
  board : List Int
deriving DecidableEq, Repr

/-- Two's complement reduction of an `int` result to 32 bits. -/
def wrap32 (x : Int) : Int := (x + 2147483648) % 4294967296 - 2147483648

/-- Offset of `board[row][col]` in the memory of `int board[DIM_MAX][DIM_MAX]`. -/
def offset (row col : Int) : Int := row * DIM_MAX + col

/-- The value read by `board[row][col]`.  (An access outside the array is
undefined in C; the model reads `0` there.) -/
def board_get (b : List Int) (row col : Int) : Int :=
  if 0 ≤ offset row col then b.getD (offset row col).toNat 0 else 0

/-- The memory after `board[row][col] = v`.  (A store outside the array is
undefined in C; the model drops it.) -/
def board_set (b : List Int) (row col : Int) (v : Int) : List Int :=
  if 0 ≤ offset row col then b.set (offset row col).toNat v else b

/-! ## Index helpers -/

/-- The function `get_row`: `index / dim`. -/
def get_row (s : State) (index : Int) : Int := Int.tdiv index s.dim

/-- The function `get_col`: `index % dim`. -/
def get_col (s : State) (index : Int) : Int := Int.tmod index s.dim

/-- The function `valid_index`: false when `index` is outside `[0, num_tiles)`. -/
def valid_index (s : State) (index : Int) : Bool :=
  if index < 0 ∨ index ≥ s.num_tiles then false else true

/-- The expression `board[get_row(i)][get_col(i)]`. -/
def cell (s : State) (i : Int) : Int :=
  board_get s.board (get_row s i) (get_col s i)

/-! ## init_globals, init, swap -/

/-- The function `init_globals`: the globals that depend on `dim`. -/
def init_globals (s : State) : State :=
  let num_tiles := s.dim * s.dim
  { s with
    num_tiles := num_tiles
    last_row := Int.tdiv (num_tiles - 1) s.dim
    last_col := s.dim - 1
    empty_tile_index := num_tiles - 1 }

/-- The function `swap`: exchanges the cells at `index1` and `index2`; false (and no
change) when one of them is not a valid index. -/
def swap (s : State) (index1 index2 : Int) : Bool × State :=
  if !valid_index s index1 then (false, s)
  else if !valid_index s index2 then (false, s)
  else
    let row1 := get_row s index1
    let col1 := get_col s index1
    let row2 := get_row s index2
    let col2 := get_col s index2
    let tmp := board_get s.board row1 col1
    let b1 := board_set s.board row1 col1 (board_get s.board row2 col2)
    let b2 := board_set b1 row2 col2 tmp
    (true, { s with board := b2 })

/-- The `for` loop of `init`, with `n` iterations left, at counter `i` and
value `num`: `board[get_row(i)][get_col(i)] = num; i++, num--`. -/
def init_loop : Nat → Int → Int → State → State
  | 0, _, _, s => s
  | n + 1, i, num, s =>
    init_loop n (i + 1) (num - 1)
      { s with board := board_set s.board (get_row s i) (get_col s i) num }

/-- The function `init`: descending fill, the exchange for even dimensions, then the
empty space in the last cell. -/
def init (s : State) : State :=
  let s1 := init_loop s.num_tiles.toNat 0 (s.num_tiles - 1) s
  let s2 :=
    if Int.tmod s1.dim 2 = 0 then
      (swap s1 (s1.num_tiles - ONE_OFFSET) (s1.num_tiles - TWO_OFFSET)).2
    else s1
  { s2 with board := board_set s2.board s2.last_row s2.last_col EMPTY_SPACE }

/-! ## get_index, valid_move, move, won -/

/-- The `for` loop of `get_index`, with `n` iterations left, at counter `i`. -/
def get_index_loop (s : State) (tile : Int) : Nat → Int → Int
  | 0, _ => -1
  | n + 1, i => if cell s i = tile then i else get_index_loop s tile n (i + 1)

/-- The function `get_index`: linear search for `tile`; `-1` when it is not a tile number
or not on the board. -/
def get_index (s : State) (tile : Int) : Int :=
  if tile ≤ 0 ∨ tile ≥ s.num_tiles then -1
  else get_index_loop s tile s.num_tiles.toNat 0

/-- The function `valid_move`: the tile's index is one of the four neighbour indices of
the empty space. -/
def valid_move (s : State) (tile : Int) : Bool :=
  let tile_index := get_index s tile
  if !valid_index s tile_index then false
  else
    let row_above_index := wrap32 (s.empty_tile_index - s.dim)
    let row_below_index := wrap32 (s.empty_tile_index + s.dim)
    let col_left_index := wrap32 (s.empty_tile_index - 1)
    let col_right_index := wrap32 (s.empty_tile_index + 1)
    if tile_index = row_above_index then true
    else if tile_index = row_below_index then true
    else if tile_index = col_left_index then true
    else if tile_index = col_right_index then true
    else false

/-- The function `move`: the returned flag and the state afterwards. -/
def move (s : State) (tile : Int) : Bool × State :=
  let swapped_tile_index := get_index s tile
  if !valid_move s tile then (false, s)
  else
    let r := swap s (get_index s tile) s.empty_tile_index
    (r.1, { r.2 with empty_tile_index := swapped_tile_index })

/-- The `for` loop of `won`, with `n` iterations left, at counter `i`. -/
def won_loop (s : State) : Nat → Int → Bool
  | 0, _ => true
  | n + 1, i => if cell s i ≠ i + 1 then false else won_loop s n (i + 1)

/-- The function `won`: the board is in the winning configuration. -/
def won (s : State) : Bool :=
  if board_get s.board s.last_row s.last_col ≠ EMPTY_SPACE then false
  else won_loop s (s.num_tiles - 1).toNat 0

/-! ## save, load -/

/-- The function `save`: the ints written to the file: `putw(dim)`, `putw(empty_tile_index)`,
then `fwrite(board, sizeof(float), dim*dim, fp)`, which writes the first
`dim*dim` ints of the array's memory. -/
def save (s : State) : List Int :=
  s.dim :: s.empty_tile_index :: s.board.take (s.dim * s.dim).toNat

/-- The function `getw`: the next int of the file and the rest; `EOF` (`-1`) at the end. -/
def getw (file : List Int) : Int × List Int :=
  match file with
  | [] => (-1, [])
  | x :: rest => (x, rest)

/-- The call `fread(board, sizeof(float), n, fp)`: the items read (at most `n`)
overwrite the start of the array's memory. -/
def fread (b : List Int) (n : Nat) (file : List Int) : List Int :=
  let items := file.take n
  items ++ b.drop items.length

/-- The function `load`: `dim = getw(fp)`, `empty_tile_index = getw(fp)`, then
`fread(board, sizeof(float), dim*dim, fp)`. -/
def load (s : State) (file : List Int) : State :=
  let r1 := getw file
  let s1 := { s with dim := r1.1 }
  let r2 := getw r1.2
  let s2 := { s1 with empty_tile_index := r2.1 }
  { s2 with board := fread s2.board (s2.dim * s2.dim).toNat r2.2 }

/-- The globals when the process starts: statics are zero. -/
def fresh : State :=
  { last_row := 0, last_col := 0, num_tiles := 0, empty_tile_index := 0, dim := 0,
    board := List.replicate 100 0 }

/-- Case `n` of the menu: `dim` is read, then `init_globals(); init();`. -/
def new_game (s : State) (d : Int) : State :=
  init (init_globals { s with dim := d })

/-- The `dim * dim` cells in the order of their linear index. -/
def cells (s : State) : List Int :=
  (List.range (s.dim * s.dim).toNat).map (fun k => cell s (k : Int))

/-- Memory offset (as an index of the flat list) of cell `i` on a board of
side `d`. -/
def pos (d i : Int) : Nat := (offset (Int.tdiv i d) (Int.tmod i d)).toNat

/-- The state is one the engine works on: `dim` is in `[DIM_MIN, DIM_MAX]`,
the derived globals are the ones `init_globals` (or the menu after `load`)
computes from `dim`, and `board` is the `DIM_MAX * DIM_MAX` array. -/
abbrev Globals (s : State) : Prop :=
  DIM_MIN ≤ s.dim ∧ s.dim ≤ DIM_MAX ∧ s.num_tiles = s.dim * s.dim ∧
  s.last_row = Int.tdiv (s.num_tiles - 1) s.dim ∧ s.last_col = s.dim - 1 ∧
  s.board.length = 100

/-- The value fits an `int` (32 bits, two's complement). -/
abbrev IsInt32 (x : Int) : Prop := -2147483648 ≤ x ∧ x < 2147483648

instance decidableExistsLELT (P : Int → Prop) [DecidablePred P] (m n : Int) :
    Decidable (∃ r, m ≤ r ∧ r < n ∧ P r) :=
  decidable_of_iff (¬ ∀ r, m ≤ r → r < n → ¬ P r) (by
    constructor
    · intro h
      by_contra h'
      exact h (fun r h1 h2 h3 => h' ⟨r, h1, h2, h3⟩)
    · rintro ⟨r, h1, h2, h3⟩ h
      exact h r h1 h2 h3)

/-- Exactly one of the `dim * dim` cells holds `v`. -/
abbrev OnceIn (s : State) (v : Int) : Prop :=
  ∃ i, 0 ≤ i ∧ i < s.dim * s.dim ∧
    (cell s i = v ∧ ∀ j, 0 ≤ j → j < s.dim * s.dim → cell s j = v → j = i)

/-- The empty space is in exactly one cell, and `empty_tile_index` is its
linear index. -/
abbrev SingleEmpty (s : State) : Prop :=
  OnceIn s EMPTY_SPACE ∧ 0 ≤ s.empty_tile_index ∧
  s.empty_tile_index < s.dim * s.dim ∧ cell s s.empty_tile_index = EMPTY_SPACE

/-- The cells hold each tile `1 .. dim*dim-1` once and the empty space once,
at `empty_tile_index`. -/
abbrev TilesOnce (s : State) : Prop :=
  (∀ t, 1 ≤ t → t < s.dim * s.dim → OnceIn s t) ∧ SingleEmpty s

/-- The states of a game of side `d` started from the globals `s0`:
`init_globals(); init();` and then any number of calls of `move`. -/
inductive Reachable (s0 : State) (d : Int) : State → Prop
  | start : Reachable s0 d (new_game s0 d)
  | step (s : State) (tile : Int) : Reachable s0 d s → Reachable s0 d (move s tile).2

/-- The solved 3x3 board `[1,2,3,4,5,6,7,8,EMPTY]`: rows `1 2 3`, `4 5 6`,
`7 8 _` in the first three columns of the first three rows of the array. -/
def solved3 : State :=
  { last_row := 2, last_col := 2, num_tiles := 9, empty_tile_index := 8, dim := 3,
    board :=
      [1, 2, 3, 0, 0, 0, 0, 0, 0, 0,
       4, 5, 6, 0, 0, 0, 0, 0, 0, 0,
       7, 8, -1, 0, 0, 0, 0, 0, 0, 0] ++ List.replicate 70 0 }

/-- Case `l` of the menu: `load();` and then the derived globals are
recomputed from the loaded `dim`. -/
def load_game (s : State) (file : List Int) : State :=
  let s1 := load s file
  let num_tiles := s1.dim * s1.dim
  { s1 with
    num_tiles := num_tiles
    last_row := Int.tdiv (num_tiles - 1) s1.dim
    last_col := s1.dim - 1 }

/-- The value the loop of `init` stores in cell `i` of a board of side `d`
(`num` starts at `num_tiles - 1` and goes down with `i`). -/
def descending (d i : Int) : Int := d * d - 1 - i

/-- The closed form of the board after `init` on a board of side `d`. -/
def init_value (d k : Int) : Int :=
  if k = d * d - 1 then EMPTY_SPACE
  else if Int.tmod d 2 = 0 ∧ k = d * d - 2 then 2
  else if Int.tmod d 2 = 0 ∧ k = d * d - 3 then 1
  else d * d - 1 - k

/-- The board the spec describes for even `dim`: the descending fill in
which the two cells holding the values `d*d-2` and `d*d-3` have been
exchanged with each other, then the last cell set to the empty space. -/
def exchanged_by_value (d i : Int) : Int :=
  if i = d * d - 1 then EMPTY_SPACE
  else if descending d i = d * d - 2 then d * d - 3
  else if descending d i = d * d - 3 then d * d - 2
  else descending d i

/-- The descending fill in which the two cells at the linear indices
`d*d-2` and `d*d-3` have been exchanged with each other, then the last cell
set to the empty space. -/
def exchanged_by_index (d i : Int) : Int :=
  if i = d * d - 1 then EMPTY_SPACE
  else if i = d * d - 2 then descending d (d * d - 3)
  else if i = d * d - 3 then descending d (d * d - 2)
  else descending d i

/-- Number of pairs `i < j < n` with `g i > g j`. -/
def inversions_of (g : Int → Int) (n : Nat) : Nat :=
  ((List.range n).map (fun (j : Nat) =>
    ((List.range j).filter (fun (i : Nat) => decide (g (i : Int) > g (j : Int)))).length)).sum

/-- Number of inversions among the tiles read in row-major order: the pairs
`i < j` in `[0, dim*dim-1)` with cell `i` greater than cell `j`. -/
def inversions (s : State) : Nat :=
  inversions_of (cell s) (s.dim * s.dim - 1).toNat

/-- Cell `p` borders cell `e` in the grid (the `+` shape): same column and
rows that differ by exactly 1, or same row and columns that differ by
exactly 1. -/
abbrev borders (s : State) (p e : Int) : Prop :=
  (get_col s p = get_col s e ∧
    (get_row s p = get_row s e + 1 ∨ get_row s p + 1 = get_row s e)) ∨
  (get_row s p = get_row s e ∧
    (get_col s p = get_col s e + 1 ∨ get_col s p + 1 = get_col s e))

/-- Every cell holds a tile number or the empty space. -/
abbrev OnlyTiles (s : State) : Prop :=
  ∀ i, 0 ≤ i → i < s.dim * s.dim →
    (cell s i = EMPTY_SPACE ∨ (1 ≤ cell s i ∧ cell s i ≤ s.dim * s.dim - 1))

/-- The exchange of the indices `a` and `b`. -/
def transpose (a b k : Int) : Int := if k = a then b else if k = b then a else k

/-! ## Arithmetic of indices -/

theorem wrap32_eq {x : Int} (h1 : -2147483648 ≤ x) (h2 : x < 2147483648) :
    wrap32 x = x := by
  unfold wrap32; omega

theorem offset_nonneg {d i : Int} (hd : 2 ≤ d) (hd' : d ≤ 10) (hi : 0 ≤ i)
    (hi' : i < d * d) : 0 ≤ offset (Int.tdiv i d) (Int.tmod i d) := by
  rw [Int.tdiv_eq_ediv hi (by omega), Int.tmod_eq_emod hi (by omega)]
  unfold offset DIM_MAX
  interval_cases d <;> omega

theorem pos_lt {d i : Int} (hd : 2 ≤ d) (hd' : d ≤ 10) (hi : 0 ≤ i)
    (hi' : i < d * d) : pos d i < 100 := by
  unfold pos
  rw [Int.tdiv_eq_ediv hi (by omega), Int.tmod_eq_emod hi (by omega)]
  unfold offset DIM_MAX
  interval_cases d <;> omega

theorem pos_inj {d i j : Int} (hd : 2 ≤ d) (hd' : d ≤ 10) (hi : 0 ≤ i)
    (hi' : i < d * d) (hj : 0 ≤ j) (hj' : j < d * d) (h : pos d i = pos d j) :
    i = j := by
  unfold pos at h
  rw [Int.tdiv_eq_ediv hi (by omega), Int.tmod_eq_emod hi (by omega),
    Int.tdiv_eq_ediv hj (by omega), Int.tmod_eq_emod hj (by omega)] at h
  unfold offset DIM_MAX at h
  interval_cases d <;> omega

theorem getD_set_eq (b : List Int) (k j : Nat) (v : Int) (hk : k < b.length) :
    (b.set k v).getD j 0 = if j = k then v else b.getD j 0 := by
  simp only [List.getD_eq_getElem?_getD, List.getElem?_set]
  by_cases h : j = k
  · subst h; simp [hk]
  · have h' : ¬ k = j := fun e => h e.symm
    simp [h, h']

theorem cell_eq (s : State) {i : Int} (hd : 2 ≤ s.dim) (hd' : s.dim ≤ 10)
    (hi : 0 ≤ i) (hi' : i < s.dim * s.dim) :
    cell s i = s.board.getD (pos s.dim i) 0 := by
  unfold cell board_get get_row get_col pos
  rw [if_pos (offset_nonneg hd hd' hi hi')]

theorem cell_upd (s : State) (b : List Int) {i : Int} (hd : 2 ≤ s.dim)
    (hd' : s.dim ≤ 10) (hi : 0 ≤ i) (hi' : i < s.dim * s.dim) :
    cell { s with board := b } i = b.getD (pos s.dim i) 0 :=
  cell_eq { s with board := b } hd hd' hi hi'

theorem board_set_eq (b : List Int) {d i : Int} (v : Int) (hd : 2 ≤ d)
    (hd' : d ≤ 10) (hi : 0 ≤ i) (hi' : i < d * d) :
    board_set b (Int.tdiv i d) (Int.tmod i d) v = b.set (pos d i) v := by
  unfold board_set pos
  rw [if_pos (offset_nonneg hd hd' hi hi')]

theorem getD_set_pos (b : List Int) {d i j : Int} (v : Int) (hd : 2 ≤ d)
    (hd' : d ≤ 10) (hi : 0 ≤ i) (hi' : i < d * d) (hj : 0 ≤ j) (hj' : j < d * d)
    (hb : b.length = 100) :
    (b.set (pos d i) v).getD (pos d j) 0 = if j = i then v else b.getD (pos d j) 0 := by
  rw [getD_set_eq b _ _ v (by rw [hb]; exact pos_lt hd hd' hi hi')]
  by_cases h : j = i
  · subst h; simp
  · have h' : pos d j ≠ pos d i := fun e => h (pos_inj hd hd' hj hj' hi hi' e)
    simp [h, h']

/-! ## swap -/

theorem valid_index_iff (s : State) (i : Int) :
    valid_index s i = true ↔ 0 ≤ i ∧ i < s.num_tiles := by
  unfold valid_index
  by_cases h : i < 0 ∨ i ≥ s.num_tiles
  · simp only [h, if_true]; constructor
    · intro h'; cases h'
    · intro h'; omega
  · simp only [h, if_false]; constructor
    · intro _; omega
    · intro _; trivial

theorem swap_invalid (s : State) (i1 i2 : Int)
    (h : ¬ (0 ≤ i1 ∧ i1 < s.num_tiles) ∨ ¬ (0 ≤ i2 ∧ i2 < s.num_tiles)) :
    swap s i1 i2 = (false, s) := by
  unfold swap
  by_cases h1 : valid_index s i1 = true
  · have h2 : valid_index s i2 = false := by
      have : ¬ valid_index s i2 = true := by
        rw [valid_index_iff]; rw [valid_index_iff] at h1; tauto
      simpa using this
    simp [h1, h2]
  · have h1' : valid_index s i1 = false := by simpa using h1
    simp [h1']

theorem swap_valid (s : State) (i1 i2 : Int) (hg : Globals s)
    (h1 : 0 ≤ i1 ∧ i1 < s.num_tiles) (h2 : 0 ≤ i2 ∧ i2 < s.num_tiles) :
    swap s i1 i2 = (true, { s with
      board :=
        (s.board.set (pos s.dim i1) (s.board.getD (pos s.dim i2) 0)).set
          (pos s.dim i2) (s.board.getD (pos s.dim i1) 0) }) := by
  obtain ⟨hd, hd', hn, -, -, hb⟩ := hg
  have hd2 : (2 : Int) ≤ s.dim := hd
  have hd10 : s.dim ≤ (10 : Int) := hd'
  rw [hn] at h1 h2
  have v1 : valid_index s i1 = true := (valid_index_iff s i1).2 (by rw [hn]; exact h1)
  have v2 : valid_index s i2 = true := (valid_index_iff s i2).2 (by rw [hn]; exact h2)
  unfold swap
  simp only [v1, v2, Bool.not_true, Bool.false_eq_true, if_false]
  have e1 := cell_eq s hd2 hd10 h1.1 h1.2
  have e2 := cell_eq s hd2 hd10 h2.1 h2.2
  unfold cell at e1 e2
  rw [e1, e2]
  unfold get_row get_col
  rw [board_set_eq _ _ hd2 hd10 h1.1 h1.2, board_set_eq _ _ hd2 hd10 h2.1 h2.2]

theorem cell_swap (s : State) (i1 i2 j : Int) (hg : Globals s)
    (h1 : 0 ≤ i1 ∧ i1 < s.num_tiles) (h2 : 0 ≤ i2 ∧ i2 < s.num_tiles)
    (hj : 0 ≤ j ∧ j < s.num_tiles) :
    cell (swap s i1 i2).2 j =
      if j = i2 then cell s i1 else if j = i1 then cell s i2 else cell s j := by
  rw [swap_valid s i1 i2 hg h1 h2]
  obtain ⟨hd, hd', hn, -, -, hb⟩ := hg
  have hd2 : (2 : Int) ≤ s.dim := hd
  have hd10 : s.dim ≤ (10 : Int) := hd'
  rw [hn] at h1 h2 hj
  dsimp only
  rw [cell_upd s _ hd2 hd10 hj.1 hj.2, cell_eq s hd2 hd10 h1.1 h1.2,
    cell_eq s hd2 hd10 h2.1 h2.2, cell_eq s hd2 hd10 hj.1 hj.2]
  rw [getD_set_pos _ _ hd2 hd10 h2.1 h2.2 hj.1 hj.2 (by simp [hb]),
    getD_set_pos _ _ hd2 hd10 h1.1 h1.2 hj.1 hj.2 hb]

/-! ## The loops -/

theorem get_index_loop_spec (s : State) (tile : Int) :
    ∀ (n : Nat) (i : Int),
      (get_index_loop s tile n i = -1 ∧ ∀ k, i ≤ k → k < i + n → cell s k ≠ tile) ∨
      (i ≤ get_index_loop s tile n i ∧ get_index_loop s tile n i < i + n ∧
        cell s (get_index_loop s tile n i) = tile ∧
        ∀ k, i ≤ k → k < get_index_loop s tile n i → cell s k ≠ tile) := by
  intro n
  induction n with
  | zero =>
    intro i
    left
    refine ⟨rfl, ?_⟩
    intro k h1 h2
    simp at h2
    omega
  | succ n ih =>
    intro i
    unfold get_index_loop
    by_cases h : cell s i = tile
    · right
      rw [if_pos h]
      refine ⟨le_refl _, by push_cast; omega, h, ?_⟩
      intro k h1 h2
      omega
    · rw [if_neg h]
      rcases ih (i + 1) with ⟨h1, h2⟩ | ⟨h1, h2, h3, h4⟩
      · left
        refine ⟨h1, ?_⟩
        intro k hk1 hk2
        by_cases hk : k = i
        · subst hk; exact h
        · exact h2 k (by omega) (by push_cast at hk2; omega)
      · right
        refine ⟨by omega, by push_cast; omega, h3, ?_⟩
        intro k hk1 hk2
        by_cases hk : k = i
        · subst hk; exact h
        · exact h4 k (by omega) hk2

theorem won_loop_spec (s : State) :
    ∀ (n : Nat) (i : Int),
      won_loop s n i = true ↔ ∀ k, i ≤ k → k < i + n → cell s k = k + 1 := by
  intro n
  induction n with
  | zero =>
    intro i
    simp only [won_loop, true_iff]
    intro k h1 h2
    simp at h2
    omega
  | succ n ih =>
    intro i
    unfold won_loop
    by_cases h : cell s i = i + 1
    · simp only [ne_eq, h, not_true_eq_false, if_false]
      rw [ih (i + 1)]
      constructor
      · intro h' k hk1 hk2
        by_cases hk : k = i
        · subst hk; exact h
        · exact h' k (by omega) (by push_cast at hk2; omega)
      · intro h' k hk1 hk2
        exact h' k (by omega) (by push_cast; omega)
    · simp only [ne_eq, h, not_false_eq_true, if_true]
      constructor
      · intro h'; cases h'
      · intro h'
        exact absurd (h' i (le_refl _) (by push_cast; omega)) h

theorem init_loop_spec :
    ∀ (n : Nat) (i num : Int) (s : State), 2 ≤ s.dim → s.dim ≤ 10 →
      s.board.length = 100 → 0 ≤ i → i + n ≤ s.dim * s.dim →
      (init_loop n i num s).dim = s.dim ∧
      (init_loop n i num s).num_tiles = s.num_tiles ∧
      (init_loop n i num s).last_row = s.last_row ∧
      (init_loop n i num s).last_col = s.last_col ∧
      (init_loop n i num s).empty_tile_index = s.empty_tile_index ∧
      (init_loop n i num s).board.length = 100 ∧
      ∀ k, 0 ≤ k → k < s.dim * s.dim →
        cell (init_loop n i num s) k =
          if i ≤ k ∧ k < i + n then num - (k - i) else cell s k := by
  intro n
  induction n with
  | zero =>
    intro i num s _ _ hb _ _
    refine ⟨rfl, rfl, rfl, rfl, rfl, hb, ?_⟩
    intro k _ _
    have : ¬ (i ≤ k ∧ k < i + ((0 : Nat) : Int)) := by push_cast; omega
    rw [if_neg this]
    rfl
  | succ n ih =>
    intro i num s hd hd' hb hi hin
    push_cast at hin
    have hi' : i < s.dim * s.dim := by omega
    unfold init_loop get_row get_col
    rw [board_set_eq _ _ hd hd' hi hi']
    obtain ⟨h1, h2, h3, h4, h5, h6, h7⟩ :=
      ih (i + 1) (num - 1) { s with board := s.board.set (pos s.dim i) num } hd hd'
        (by simp [hb]) (by omega) (by dsimp only; omega)
    refine ⟨h1, h2, h3, h4, h5, h6, ?_⟩
    intro k hk hk'
    rw [h7 k hk hk', cell_upd s _ hd hd' hk hk', getD_set_pos _ _ hd hd' hi hi' hk hk' hb,
      ← cell_eq s hd hd' hk hk']
    push_cast
    by_cases e : k = i
    · subst e
      have c1 : ¬ (k + 1 ≤ k ∧ k < k + 1 + n) := by omega
      have c2 : k ≤ k ∧ k < k + (n + 1) := by omega
      rw [if_neg c1, if_pos c2, if_pos rfl]; omega
    · by_cases c : i + 1 ≤ k ∧ k < i + 1 + n
      · have c2 : i ≤ k ∧ k < i + (n + 1) := by omega
        rw [if_pos c, if_pos c2]; omega
      · have c2 : ¬ (i ≤ k ∧ k < i + (n + 1)) := by omega
        rw [if_neg c, if_neg c2, if_neg e]

/-! ## get_index, valid_move, move -/

theorem get_index_spec (s : State) (t : Int) :
    (get_index s t = -1 ∧
      (t ≤ 0 ∨ t ≥ s.num_tiles ∨
        ∀ k, 0 ≤ k → k < s.num_tiles → cell s k ≠ t)) ∨
    (1 ≤ t ∧ t < s.num_tiles ∧ 0 ≤ get_index s t ∧ get_index s t < s.num_tiles ∧
      cell s (get_index s t) = t ∧
      ∀ k, 0 ≤ k → k < get_index s t → cell s k ≠ t) := by
  unfold get_index
  by_cases h : t ≤ 0 ∨ t ≥ s.num_tiles
  · rw [if_pos h]
    left
    refine ⟨rfl, ?_⟩
    tauto
  · rw [if_neg h]
    have hn : ((s.num_tiles.toNat : Nat) : Int) = s.num_tiles := by omega
    rcases get_index_loop_spec s t s.num_tiles.toNat 0 with ⟨h1, h2⟩ | ⟨h1, h2, h3, h4⟩
    · left
      refine ⟨h1, Or.inr (Or.inr ?_)⟩
      intro k hk hk'
      exact h2 k hk (by omega)
    · right
      exact ⟨by omega, by omega, h1, by omega, h3, h4⟩

theorem valid_move_iff (s : State) (t : Int) :
    valid_move s t = true ↔
      (0 ≤ get_index s t ∧ get_index s t < s.num_tiles) ∧
      (get_index s t = wrap32 (s.empty_tile_index - s.dim) ∨
        get_index s t = wrap32 (s.empty_tile_index + s.dim) ∨
        get_index s t = wrap32 (s.empty_tile_index - 1) ∨
        get_index s t = wrap32 (s.empty_tile_index + 1)) := by
  unfold valid_move
  rw [← valid_index_iff]
  by_cases hv : valid_index s (get_index s t) = true
  · simp only [hv, Bool.not_true, Bool.false_eq_true, if_false, true_and]
    by_cases h1 : get_index s t = wrap32 (s.empty_tile_index - s.dim)
    · simp [h1]
    · by_cases h2 : get_index s t = wrap32 (s.empty_tile_index + s.dim)
      · simp [h2]
      · by_cases h3 : get_index s t = wrap32 (s.empty_tile_index - 1)
        · simp [h3]
        · by_cases h4 : get_index s t = wrap32 (s.empty_tile_index + 1)
          · simp [h4]
          · simp [h1, h2, h3, h4]
  · have hv' : valid_index s (get_index s t) = false := by simpa using hv
    simp [hv']

theorem wrap32_match {p x : Int} (hp : 0 ≤ p) (hp' : p < 100)
    (hx : -2147483648 - 10 ≤ x) (hx' : x < 2147483648 + 10) :
    p = wrap32 x ↔ p = x := by
  unfold wrap32; omega

theorem num_tiles_le (s : State) (hg : Globals s) :
    4 ≤ s.num_tiles ∧ s.num_tiles ≤ 100 := by
  obtain ⟨hd, hd', hn, -, -, -⟩ := hg
  have hd2 : (2 : Int) ≤ s.dim := hd
  have hd10 : s.dim ≤ (10 : Int) := hd'
  rw [hn]
  constructor <;> nlinarith

/-- With the four neighbour indices written without the 32-bit reduction. -/
theorem valid_move_iff_plain (s : State) (t : Int) (hg : Globals s)
    (he : IsInt32 s.empty_tile_index) :
    valid_move s t = true ↔
      (0 ≤ get_index s t ∧ get_index s t < s.num_tiles) ∧
      (get_index s t = s.empty_tile_index - s.dim ∨
        get_index s t = s.empty_tile_index + s.dim ∨
        get_index s t = s.empty_tile_index - 1 ∨
        get_index s t = s.empty_tile_index + 1) := by
  rw [valid_move_iff]
  have hnt := num_tiles_le s hg
  obtain ⟨hd, hd', -, -, -, -⟩ := hg
  have hd2 : (2 : Int) ≤ s.dim := hd
  have hd10 : s.dim ≤ (10 : Int) := hd'
  obtain ⟨he1, he2⟩ := he
  constructor
  · rintro ⟨hv, h⟩
    refine ⟨hv, ?_⟩
    rw [wrap32_match hv.1 (by omega) (by omega) (by omega),
      wrap32_match hv.1 (by omega) (by omega) (by omega),
      wrap32_match hv.1 (by omega) (by omega) (by omega),
      wrap32_match hv.1 (by omega) (by omega) (by omega)] at h
    exact h
  · rintro ⟨hv, h⟩
    refine ⟨hv, ?_⟩
    rw [wrap32_match hv.1 (by omega) (by omega) (by omega),
      wrap32_match hv.1 (by omega) (by omega) (by omega),
      wrap32_match hv.1 (by omega) (by omega) (by omega),
      wrap32_match hv.1 (by omega) (by omega) (by omega)]
    exact h

theorem move_invalid (s : State) (t : Int) (h : valid_move s t = false) :
    move s t = (false, s) := by
  unfold move
  simp [h]

theorem move_valid (s : State) (t : Int) (h : valid_move s t = true) :
    move s t =
      ((swap s (get_index s t) s.empty_tile_index).1,
        { (swap s (get_index s t) s.empty_tile_index).2 with
          empty_tile_index := get_index s t }) := by
  unfold move
  simp [h]

/-! ## init -/

theorem tmod_last {d : Int} (hd : 2 ≤ d) (hd' : d ≤ 10) :
    Int.tmod (d * d - 1) d = d - 1 := by
  interval_cases d <;> rfl

theorem cell_board_set (s : State) (v : Int) {i k : Int} (hd : 2 ≤ s.dim)
    (hd' : s.dim ≤ 10) (hb : s.board.length = 100) (hi : 0 ≤ i)
    (hi' : i < s.dim * s.dim) (hk : 0 ≤ k) (hk' : k < s.dim * s.dim) :
    cell { s with board := board_set s.board (Int.tdiv i s.dim) (Int.tmod i s.dim) v } k =
      if k = i then v else cell s k := by
  rw [board_set_eq _ _ hd hd' hi hi', cell_upd s _ hd hd' hk hk',
    getD_set_pos _ _ hd hd' hi hi' hk hk' hb, cell_eq s hd hd' hk hk']

/-- The state after the loop of `init` and the exchange for even `dim`. -/
theorem init_exchange_spec (g : State) (hg : Globals g) :
    ∃ s2 : State,
      (if Int.tmod (init_loop g.num_tiles.toNat 0 (g.num_tiles - 1) g).dim 2 = 0 then
        (swap (init_loop g.num_tiles.toNat 0 (g.num_tiles - 1) g)
          ((init_loop g.num_tiles.toNat 0 (g.num_tiles - 1) g).num_tiles - ONE_OFFSET)
          ((init_loop g.num_tiles.toNat 0 (g.num_tiles - 1) g).num_tiles - TWO_OFFSET)).2
      else init_loop g.num_tiles.toNat 0 (g.num_tiles - 1) g) = s2 ∧
      s2.dim = g.dim ∧ s2.num_tiles = g.num_tiles ∧ s2.last_row = g.last_row ∧
      s2.last_col = g.last_col ∧ s2.empty_tile_index = g.empty_tile_index ∧
      s2.board.length = 100 ∧
      ∀ k, 0 ≤ k → k < g.dim * g.dim →
        cell s2 k =
          if Int.tmod g.dim 2 = 0 ∧ k = g.dim * g.dim - 2 then 2
          else if Int.tmod g.dim 2 = 0 ∧ k = g.dim * g.dim - 3 then 1
          else g.dim * g.dim - 1 - k := by
  have hnt := num_tiles_le g hg
  obtain ⟨hd, hd', hn, hr, hc, hb⟩ := hg
  have hd2 : (2 : Int) ≤ g.dim := hd
  have hd10 : g.dim ≤ (10 : Int) := hd'
  obtain ⟨l1, l2, l3, l4, l5, l6, l7⟩ :=
    init_loop_spec g.num_tiles.toNat 0 (g.num_tiles - 1) g hd2 hd10 hb (le_refl 0) (by omega)
  generalize init_loop g.num_tiles.toNat 0 (g.num_tiles - 1) g = s1 at l1 l2 l3 l4 l5 l6 l7
  have hfill : ∀ k, 0 ≤ k → k < g.dim * g.dim → cell s1 k = g.dim * g.dim - 1 - k := by
    intro k hk hk'
    rw [l7 k hk hk', if_pos (by omega)]
    omega
  have hg1 : Globals s1 := ⟨by rw [l1]; exact hd, by rw [l1]; exact hd', by rw [l1, l2]; exact hn,
    by rw [l1, l2, l3]; exact hr, by rw [l1, l4]; exact hc, l6⟩
  by_cases hev : Int.tmod g.dim 2 = 0
  · refine ⟨_, rfl, ?_⟩
    rw [l1, if_pos hev]
    have v1 : 0 ≤ s1.num_tiles - ONE_OFFSET ∧ s1.num_tiles - ONE_OFFSET < s1.num_tiles := by
      unfold ONE_OFFSET; omega
    have v2 : 0 ≤ s1.num_tiles - TWO_OFFSET ∧ s1.num_tiles - TWO_OFFSET < s1.num_tiles := by
      unfold TWO_OFFSET; omega
    have hsw := swap_valid s1 _ _ hg1 v1 v2
    refine ⟨by rw [hsw]; exact l1, by rw [hsw]; exact l2, by rw [hsw]; exact l3,
      by rw [hsw]; exact l4, by rw [hsw]; exact l5, by rw [hsw]; simp [l6], ?_⟩
    intro k hk hk'
    rw [cell_swap s1 _ _ k hg1 v1 v2 ⟨hk, by omega⟩,
      hfill _ v1.1 (by omega), hfill _ v2.1 (by omega), hfill k hk hk']
    unfold ONE_OFFSET TWO_OFFSET
    rw [l2, hn]
    by_cases c1 : k = g.dim * g.dim - 2
    · have c2 : ¬ k = g.dim * g.dim - 3 := by omega
      rw [if_neg c2, if_pos c1, if_pos ⟨hev, c1⟩]; omega
    · by_cases c2 : k = g.dim * g.dim - 3
      · rw [if_pos c2, if_neg (fun h => c1 h.2), if_pos ⟨hev, c2⟩]; omega
      · rw [if_neg c2, if_neg c1, if_neg (fun h => c1 h.2), if_neg (fun h => c2 h.2)]
  · refine ⟨_, rfl, ?_⟩
    rw [l1, if_neg hev]
    refine ⟨l1, l2, l3, l4, l5, l6, ?_⟩
    intro k hk hk'
    rw [hfill k hk hk', if_neg (fun h => hev h.1), if_neg (fun h => hev h.1)]

theorem init_spec (g : State) (hg : Globals g) :
    (init g).dim = g.dim ∧ (init g).num_tiles = g.num_tiles ∧
    (init g).last_row = g.last_row ∧ (init g).last_col = g.last_col ∧
    (init g).empty_tile_index = g.empty_tile_index ∧ (init g).board.length = 100 ∧
    ∀ k, 0 ≤ k → k < g.dim * g.dim →
      cell (init g) k =
        if k = g.dim * g.dim - 1 then EMPTY_SPACE
        else if Int.tmod g.dim 2 = 0 ∧ k = g.dim * g.dim - 2 then 2
        else if Int.tmod g.dim 2 = 0 ∧ k = g.dim * g.dim - 3 then 1
        else g.dim * g.dim - 1 - k := by
  obtain ⟨s2, e2, m1, m2, m3, m4, m5, m6, m7⟩ := init_exchange_spec g hg
  have hnt := num_tiles_le g hg
  obtain ⟨hd, hd', hn, hr, hc, hb⟩ := hg
  have hd2 : (2 : Int) ≤ g.dim := hd
  have hd10 : g.dim ≤ (10 : Int) := hd'
  unfold init
  dsimp only
  rw [e2]
  refine ⟨m1, m2, m3, m4, m5, ?_, ?_⟩
  · unfold board_set
    split <;> simp [m6]
  · intro k hk hk'
    have hlast : s2.last_col = Int.tmod (g.dim * g.dim - 1) s2.dim := by
      rw [m4, hc, m1, tmod_last hd2 hd10]
    have hrow : s2.last_row = Int.tdiv (g.dim * g.dim - 1) s2.dim := by
      rw [m3, hr, hn, m1]
    have e : board_set s2.board s2.last_row s2.last_col EMPTY_SPACE =
        board_set s2.board (Int.tdiv (g.dim * g.dim - 1) s2.dim)
          (Int.tmod (g.dim * g.dim - 1) s2.dim) EMPTY_SPACE := by
      rw [hlast, hrow]
    rw [e,
      cell_board_set s2 EMPTY_SPACE (by rw [m1]; exact hd2) (by rw [m1]; exact hd10) m6
        (by omega) (by rw [m1]; omega) hk (by rw [m1]; exact hk'),
      m7 k hk hk']

theorem globals_init_globals (s0 : State) (d : Int) (hb : s0.board.length = 100)
    (hd : 2 ≤ d) (hd' : d ≤ 10) : Globals (init_globals { s0 with dim := d }) :=
  ⟨hd, hd', rfl, rfl, rfl, hb⟩

theorem new_game_spec (s0 : State) (d : Int) (hb : s0.board.length = 100)
    (hd : 2 ≤ d) (hd' : d ≤ 10) :
    Globals (new_game s0 d) ∧ (new_game s0 d).dim = d ∧
    (new_game s0 d).empty_tile_index = d * d - 1 ∧
    ∀ k, 0 ≤ k → k < d * d →
      cell (new_game s0 d) k =
        if k = d * d - 1 then EMPTY_SPACE
        else if Int.tmod d 2 = 0 ∧ k = d * d - 2 then 2
        else if Int.tmod d 2 = 0 ∧ k = d * d - 3 then 1
        else d * d - 1 - k := by
  have hg := globals_init_globals s0 d hb hd hd'
  obtain ⟨i1, i2, i3, i4, i5, i6, i7⟩ := init_spec _ hg
  unfold new_game
  refine ⟨⟨?_, ?_, ?_, ?_, ?_, i6⟩, i1, i5, i7⟩
  · rw [i1]; exact hd
  · rw [i1]; exact hd'
  · rw [i1, i2]; rfl
  · rw [i1, i2, i3]; rfl
  · rw [i1, i4]; rfl

/-! ## The effect of a move -/

theorem singleEmpty_unique (s : State) (h : SingleEmpty s) {j : Int} (hj : 0 ≤ j)
    (hj' : j < s.dim * s.dim) (hc : cell s j = EMPTY_SPACE) :
    j = s.empty_tile_index := by
  obtain ⟨⟨i, -, -, -, hu⟩, he, he', hce⟩ := h
  rw [hu j hj hj' hc, hu _ he he' hce]

theorem singleEmpty_of (s : State) (he : 0 ≤ s.empty_tile_index)
    (he' : s.empty_tile_index < s.dim * s.dim)
    (hc : cell s s.empty_tile_index = EMPTY_SPACE)
    (hu : ∀ j, 0 ≤ j → j < s.dim * s.dim → cell s j = EMPTY_SPACE →
      j = s.empty_tile_index) : SingleEmpty s :=
  ⟨⟨s.empty_tile_index, he, he', hc, hu⟩, he, he', hc⟩

theorem move_spec_valid (s : State) (t : Int) (hg : Globals s)
    (he : 0 ≤ s.empty_tile_index ∧ s.empty_tile_index < s.num_tiles)
    (hv : valid_move s t = true) :
    (move s t).1 = true ∧ Globals (move s t).2 ∧ (move s t).2.dim = s.dim ∧
    (move s t).2.num_tiles = s.num_tiles ∧
    (move s t).2.empty_tile_index = get_index s t ∧
    ∀ k, 0 ≤ k → k < s.num_tiles →
      cell (move s t).2 k =
        if k = s.empty_tile_index then cell s (get_index s t)
        else if k = get_index s t then cell s s.empty_tile_index
        else cell s k := by
  have hp := ((valid_move_iff s t).1 hv).1
  have hsw := swap_valid s _ _ hg hp he
  have hcs := fun k hk => cell_swap s _ _ k hg hp he hk
  rw [move_valid s t hv]
  rw [hsw] at hcs ⊢
  obtain ⟨hd, hd', hn, hr, hc, hb⟩ := hg
  refine ⟨rfl, ⟨hd, hd', hn, hr, hc, by simp [hb]⟩, rfl, rfl, rfl, ?_⟩
  intro k hk hk'
  exact hcs k ⟨hk, hk'⟩

theorem tile_at_index (s : State) (t : Int)
    (hp : 0 ≤ get_index s t ∧ get_index s t < s.num_tiles) :
    1 ≤ t ∧ t < s.num_tiles ∧ cell s (get_index s t) = t ∧
      ∀ k, 0 ≤ k → k < get_index s t → cell s k ≠ t := by
  rcases get_index_spec s t with ⟨h1, -⟩ | ⟨h1, h2, -, -, h3, h4⟩
  · omega
  · exact ⟨h1, h2, h3, h4⟩

theorem move_preserves (s : State) (t : Int) (hg : Globals s) (he : SingleEmpty s) :
    Globals (move s t).2 ∧ (move s t).2.dim = s.dim ∧ SingleEmpty (move s t).2 := by
  by_cases hv : valid_move s t = true
  · have hn : s.num_tiles = s.dim * s.dim := hg.2.2.1
    have he2 : 0 ≤ s.empty_tile_index ∧ s.empty_tile_index < s.num_tiles := by
      rw [hn]; exact ⟨he.2.1, he.2.2.1⟩
    have hp := ((valid_move_iff s t).1 hv).1
    obtain ⟨t1, t2, t3, -⟩ := tile_at_index s t hp
    obtain ⟨-, m2, m3, m4, m5, m6⟩ := move_spec_valid s t hg he2 hv
    have hce : cell s s.empty_tile_index = EMPTY_SPACE := he.2.2.2
    have hne : get_index s t ≠ s.empty_tile_index := by
      intro e
      rw [e, hce] at t3
      unfold EMPTY_SPACE at t3
      omega
    refine ⟨m2, m3, ?_⟩
    apply singleEmpty_of
    · rw [m5]; exact hp.1
    · rw [m5, m3, ← hn]; exact hp.2
    · rw [m5, m6 _ hp.1 hp.2, if_neg hne, if_pos rfl]; exact hce
    · intro j hj hj' hcj
      rw [m3, ← hn] at hj'
      rw [m6 j hj hj'] at hcj
      rw [m5]
      by_cases c1 : j = s.empty_tile_index
      · rw [if_pos c1, t3] at hcj
        unfold EMPTY_SPACE at hcj
        omega
      · rw [if_neg c1] at hcj
        by_cases c2 : j = get_index s t
        · exact c2
        · rw [if_neg c2] at hcj
          rw [hn] at hj'
          exact absurd (singleEmpty_unique s he hj hj' hcj) c1
  · have hv' : valid_move s t = false := by simpa using hv
    rw [move_invalid s t hv']
    exact ⟨hg, rfl, he⟩

theorem new_game_singleEmpty (s0 : State) (d : Int) (hb : s0.board.length = 100)
    (hd : 2 ≤ d) (hd' : d ≤ 10) : SingleEmpty (new_game s0 d) := by
  obtain ⟨hg, n1, n2, n3⟩ := new_game_spec s0 d hb hd hd'
  have hnt := num_tiles_le _ hg
  have hn : (new_game s0 d).num_tiles = (new_game s0 d).dim * (new_game s0 d).dim := hg.2.2.1
  rw [hn, n1] at hnt
  apply singleEmpty_of
  · rw [n2]; omega
  · rw [n2, n1]; omega
  · rw [n2, n3 _ (by omega) (by omega), if_pos rfl]
  · intro j hj hj' hcj
    rw [n1] at hj'
    rw [n3 j hj hj'] at hcj
    rw [n2]
    by_contra c
    rw [if_neg c] at hcj
    unfold EMPTY_SPACE at hcj
    split at hcj
    · omega
    · split at hcj <;> omega

/-! ## Undoing a move -/

theorem set_set_restore (b : List Int) (P E : Nat) (hP : P < b.length) (hE : E < b.length) :
    (((b.set P (b.getD E 0)).set E (b.getD P 0)).set E (b.getD E 0)).set P (b.getD P 0) =
      b := by
  apply List.ext_getElem?
  intro n
  rw [List.getD_eq_getElem _ _ hP, List.getD_eq_getElem _ _ hE]
  simp only [List.getElem?_set, List.length_set]
  by_cases h1 : P = n
  · subst h1
    simp [hP]
  · by_cases h2 : E = n
    · subst h2
      simp [hE, h1]
    · simp [h1, h2]

theorem move_back (s : State) (t : Int) (hg : Globals s) (hperm : TilesOnce s)
    (hv : valid_move s t = true) :
    cell (move s t).2 s.empty_tile_index = t ∧ move (move s t).2 t = (true, s) := by
  have hn : s.num_tiles = s.dim * s.dim := hg.2.2.1
  have hnt := num_tiles_le s hg
  obtain ⟨htiles, he⟩ := hperm
  have he2 : 0 ≤ s.empty_tile_index ∧ s.empty_tile_index < s.num_tiles := by
    rw [hn]; exact ⟨he.2.1, he.2.2.1⟩
  have h32 : IsInt32 s.empty_tile_index := ⟨by omega, by omega⟩
  obtain ⟨hp, hnear⟩ := (valid_move_iff_plain s t hg h32).1 hv
  obtain ⟨t1, t2, t3, -⟩ := tile_at_index s t hp
  obtain ⟨-, m2, m3, m4, m5, m6⟩ := move_spec_valid s t hg he2 hv
  have hce : cell s s.empty_tile_index = EMPTY_SPACE := he.2.2.2
  have hne : get_index s t ≠ s.empty_tile_index := by
    intro e
    rw [e, hce] at t3
    unfold EMPTY_SPACE at t3
    omega
  have hcell_e : cell (move s t).2 s.empty_tile_index = t := by
    rw [m6 _ he2.1 he2.2, if_pos rfl]; exact t3
  -- the tile is found where the empty space was
  have hq : get_index (move s t).2 t = s.empty_tile_index := by
    rcases get_index_spec (move s t).2 t with ⟨-, h | h | h⟩ | ⟨-, -, q1, q2, q3, -⟩
    · omega
    · rw [m4] at h; omega
    · rw [m4] at h
      exact absurd hcell_e (h _ he2.1 he2.2)
    · rw [m4] at q2
      rw [m6 _ q1 q2] at q3
      by_contra c
      rw [if_neg c] at q3
      by_cases c2 : get_index (move s t).2 t = get_index s t
      · rw [if_pos c2, hce] at q3
        unfold EMPTY_SPACE at q3
        omega
      · rw [if_neg c2] at q3
        obtain ⟨i, -, -, -, hu⟩ := htiles t t1 (by rw [← hn]; exact t2)
        apply c2
        rw [hu _ q1 (by rw [← hn]; exact q2) q3, hu _ hp.1 (by rw [← hn]; exact hp.2) t3]
  have h32' : IsInt32 (move s t).2.empty_tile_index := by
    rw [m5]; exact ⟨by omega, by omega⟩
  have hv' : valid_move (move s t).2 t = true := by
    rw [valid_move_iff_plain _ t m2 h32', hq, m4, m5, m3]
    refine ⟨he2, ?_⟩
    omega
  refine ⟨hcell_e, ?_⟩
  rw [move_valid _ t hv', hq, m5]
  have hsw' := swap_valid (move s t).2 s.empty_tile_index (get_index s t) m2
    (by rw [m4]; exact he2) (by rw [m4]; exact hp)
  rw [hsw']
  have hbd : (move s t).2.board =
      (s.board.set (pos s.dim (get_index s t)) (s.board.getD (pos s.dim s.empty_tile_index) 0)).set
        (pos s.dim s.empty_tile_index) (s.board.getD (pos s.dim (get_index s t)) 0) := by
    rw [move_valid s t hv, swap_valid s _ _ hg hp he2]
  have hfields : (move s t).2.last_row = s.last_row ∧ (move s t).2.last_col = s.last_col := by
    rw [move_valid s t hv, swap_valid s _ _ hg hp he2]
    exact ⟨rfl, rfl⟩
  obtain ⟨hd, hd', -, -, -, hb⟩ := hg
  have hd2 : (2 : Int) ≤ s.dim := hd
  have hd10 : s.dim ≤ (10 : Int) := hd'
  have hP : pos s.dim (get_index s t) < s.board.length := by
    rw [hb]; exact pos_lt hd2 hd10 hp.1 (by rw [← hn]; exact hp.2)
  have hE : pos s.dim s.empty_tile_index < s.board.length := by
    rw [hb]; exact pos_lt hd2 hd10 he2.1 (by rw [← hn]; exact he2.2)
  have hPE : pos s.dim (get_index s t) ≠ pos s.dim s.empty_tile_index := fun e =>
    hne (pos_inj hd2 hd10 hp.1 (by rw [← hn]; exact hp.2) he2.1 (by rw [← hn]; exact he2.2) e)
  have c1 : (move s t).2.board.getD (pos s.dim (get_index s t)) 0 =
      s.board.getD (pos s.dim s.empty_tile_index) 0 := by
    rw [hbd, getD_set_eq _ _ _ _ (by simp [hE]), if_neg hPE, getD_set_eq _ _ _ _ hP, if_pos rfl]
  have c2 : (move s t).2.board.getD (pos s.dim s.empty_tile_index) 0 =
      s.board.getD (pos s.dim (get_index s t)) 0 := by
    rw [hbd, getD_set_eq _ _ _ _ (by simp [hE]), if_pos rfl]
  have hfin : ((move s t).2.board.set (pos (move s t).2.dim s.empty_tile_index)
        ((move s t).2.board.getD (pos (move s t).2.dim (get_index s t)) 0)).set
        (pos (move s t).2.dim (get_index s t))
        ((move s t).2.board.getD (pos (move s t).2.dim s.empty_tile_index) 0) = s.board := by
    rw [m3, c1, c2, hbd]
    exact set_set_restore s.board _ _ hP hE
  rw [hfin, hfields.1, hfields.2, m4, m3]

/-! ## Rows and columns -/

theorem row_col_ediv (s : State) {i : Int} (hi : 0 ≤ i) (hd : 0 ≤ s.dim) :
    get_row s i = i / s.dim ∧ get_col s i = i % s.dim := by
  unfold get_row get_col
  exact ⟨Int.tdiv_eq_ediv hi hd, Int.tmod_eq_emod hi hd⟩

theorem new_game_cell (s0 : State) (d : Int) (hb : s0.board.length = 100)
    (hd : 2 ≤ d) (hd' : d ≤ 10) {k : Int} (hk : 0 ≤ k) (hk' : k < d * d) :
    cell (new_game s0 d) k = init_value d k :=
  (new_game_spec s0 d hb hd hd').2.2.2 k hk hk'

/-! ## Inversions -/

theorem inversions_of_congr (f g : Int → Int) (n : Nat)
    (h : ∀ k : Int, 0 ≤ k → k < n → f k = g k) :
    inversions_of f n = inversions_of g n := by
  unfold inversions_of
  congr 1
  apply List.map_congr_left
  intro j hj
  rw [List.mem_range] at hj
  congr 1
  apply List.filter_congr
  intro i hi
  rw [List.mem_range] at hi
  rw [h i (by omega) (by omega), h j (by omega) (by omega)]

/-! ## The cells are a permutation of the tiles and the empty space -/

theorem init_value_even {d : Int} (h : Int.tmod d 2 = 0) (k : Int) :
    init_value d k =
      if k = d * d - 1 then -1 else if k = d * d - 2 then 2
      else if k = d * d - 3 then 1 else d * d - 1 - k := by
  unfold init_value EMPTY_SPACE
  simp only [h, true_and]

theorem init_value_odd {d : Int} (h : ¬ Int.tmod d 2 = 0) (k : Int) :
    init_value d k = if k = d * d - 1 then -1 else d * d - 1 - k := by
  unfold init_value EMPTY_SPACE
  simp only [h, false_and, if_false]

theorem init_value_once (d : Int) (hd : 2 ≤ d) (t : Int) (ht : 1 ≤ t) (ht' : t < d * d) :
    ∃ i, 0 ≤ i ∧ i < d * d ∧
      (init_value d i = t ∧ ∀ j, 0 ≤ j → j < d * d → init_value d j = t → j = i) := by
  have hsq : 4 ≤ d * d := by nlinarith
  by_cases hp : Int.tmod d 2 = 0
  · simp only [init_value_even hp]
    generalize d * d = n at *
    by_cases c1 : t = 1
    · refine ⟨n - 3, by omega, by omega, ?_, ?_⟩
      · split_ifs <;> omega
      · intro j hj hj' hc
        split_ifs at hc <;> omega
    · by_cases c2 : t = 2
      · refine ⟨n - 2, by omega, by omega, ?_, ?_⟩
        · split_ifs <;> omega
        · intro j hj hj' hc
          split_ifs at hc <;> omega
      · refine ⟨n - 1 - t, by omega, by omega, ?_, ?_⟩
        · split_ifs <;> omega
        · intro j hj hj' hc
          split_ifs at hc <;> omega
  · simp only [init_value_odd hp]
    generalize d * d = n at *
    refine ⟨n - 1 - t, by omega, by omega, ?_, ?_⟩
    · split_ifs <;> omega
    · intro j hj hj' hc
      split_ifs at hc <;> omega

theorem init_value_range (d : Int) (hd : 2 ≤ d) (k : Int) (hk : 0 ≤ k) (hk' : k < d * d) :
    init_value d k = EMPTY_SPACE ∨ (1 ≤ init_value d k ∧ init_value d k ≤ d * d - 1) := by
  have hsq : 4 ≤ d * d := by nlinarith
  unfold EMPTY_SPACE
  by_cases hp : Int.tmod d 2 = 0
  · simp only [init_value_even hp]
    generalize d * d = n at *
    split_ifs <;> omega
  · simp only [init_value_odd hp]
    generalize d * d = n at *
    split_ifs <;> omega

theorem new_game_tiles (s0 : State) (d : Int) (hb : s0.board.length = 100)
    (hd : 2 ≤ d) (hd' : d ≤ 10) :
    TilesOnce (new_game s0 d) ∧ OnlyTiles (new_game s0 d) := by
  have n1 : (new_game s0 d).dim = d := (new_game_spec s0 d hb hd hd').2.1
  refine ⟨⟨?_, new_game_singleEmpty s0 d hb hd hd'⟩, ?_⟩
  · intro t ht ht'
    rw [n1] at ht'
    obtain ⟨i, hi, hi', hci, hu⟩ := init_value_once d hd t ht ht'
    refine ⟨i, hi, by rw [n1]; exact hi', ?_, ?_⟩
    · rw [new_game_cell s0 d hb hd hd' hi hi']; exact hci
    · intro j hj hj' hcj
      rw [n1] at hj'
      rw [new_game_cell s0 d hb hd hd' hj hj'] at hcj
      exact hu j hj hj' hcj
  · intro i hi hi'
    rw [n1] at hi' ⊢
    rw [new_game_cell s0 d hb hd hd' hi hi']
    exact init_value_range d hd i hi hi'

theorem transpose_involutive (a b k : Int) : transpose a b (transpose a b k) = k := by
  unfold transpose
  split_ifs <;> omega

theorem transpose_range {a b k n : Int} (ha : 0 ≤ a ∧ a < n) (hb : 0 ≤ b ∧ b < n)
    (hk : 0 ≤ k ∧ k < n) : 0 ≤ transpose a b k ∧ transpose a b k < n := by
  unfold transpose
  split_ifs <;> omega

/-- A state whose cells are those of `s` with the cells `a` and `b`
exchanged holds every value as often as `s`. -/
theorem onceIn_transpose (s s' : State) (a b : Int) (hdim : s'.dim = s.dim)
    (ha : 0 ≤ a ∧ a < s.dim * s.dim) (hb : 0 ≤ b ∧ b < s.dim * s.dim)
    (hcell : ∀ k, 0 ≤ k → k < s.dim * s.dim →
      cell s' k = if k = a then cell s b else if k = b then cell s a else cell s k)
    (v : Int) (h : OnceIn s v) : OnceIn s' v := by
  have hτ : ∀ k, 0 ≤ k → k < s.dim * s.dim → cell s' k = cell s (transpose a b k) := by
    intro k hk hk'
    rw [hcell k hk hk']
    unfold transpose
    split_ifs <;> rfl
  obtain ⟨i, hi, hi', hci, hu⟩ := h
  have hr := transpose_range ha hb ⟨hi, hi'⟩
  refine ⟨transpose a b i, hr.1, by rw [hdim]; exact hr.2, ?_, ?_⟩
  · rw [hτ _ hr.1 hr.2, transpose_involutive]; exact hci
  · intro j hj hj' hcj
    rw [hdim] at hj'
    rw [hτ j hj hj'] at hcj
    have hrj := transpose_range ha hb ⟨hj, hj'⟩
    have := hu _ hrj.1 hrj.2 hcj
    rw [← this, transpose_involutive]

theorem move_preserves_tiles (s : State) (t : Int) (hg : Globals s)
    (hperm : TilesOnce s) (hval : OnlyTiles s) :
    TilesOnce (move s t).2 ∧ OnlyTiles (move s t).2 := by
  by_cases hv : valid_move s t = true
  · have hn : s.num_tiles = s.dim * s.dim := hg.2.2.1
    obtain ⟨htiles, he⟩ := hperm
    have he2 : 0 ≤ s.empty_tile_index ∧ s.empty_tile_index < s.num_tiles := by
      rw [hn]; exact ⟨he.2.1, he.2.2.1⟩
    have hp := ((valid_move_iff s t).1 hv).1
    obtain ⟨-, -, m3, -, -, m6⟩ := move_spec_valid s t hg he2 hv
    rw [hn] at m6 he2 hp
    refine ⟨⟨?_, (move_preserves s t hg he).2.2⟩, ?_⟩
    · intro v hv1 hv2
      rw [m3] at hv2
      exact onceIn_transpose s _ _ _ m3 he2 hp m6 v (htiles v hv1 hv2)
    · intro i hi hi'
      rw [m3] at hi' ⊢
      rw [m6 i hi hi']
      split_ifs
      · exact hval _ hp.1 hp.2
      · exact hval _ he2.1 he2.2
      · exact hval i hi hi'
  · have hv' : valid_move s t = false := by simpa using hv
    rw [move_invalid s t hv']
    exact ⟨hperm, hval⟩

/-! ## Claims -/

/-- C1: for every `dim` in `[2,10]`, in the state produced by `init_globals`
and `init` and in every state reached from it by any sequence of calls of
`move`, exactly one of the `dim*dim` cells holds the empty space, and
`empty_tile_index` is the linear index of that cell. -/
theorem single_empty_invariant (s0 : State) (d : Int) (hb : s0.board.length = 100)
    (hd : 2 ≤ d) (hd' : d ≤ 10) (s : State) (h : Reachable s0 d s) :
    s.dim = d ∧
    (∃ i, 0 ≤ i ∧ i < d * d ∧
      (cell s i = EMPTY_SPACE ∧
        ∀ j, 0 ≤ j → j < d * d → cell s j = EMPTY_SPACE → j = i)) ∧
    0 ≤ s.empty_tile_index ∧ s.empty_tile_index < d * d ∧
    cell s s.empty_tile_index = EMPTY_SPACE := by
  have key : Globals s ∧ s.dim = d ∧ SingleEmpty s := by
    induction h with
    | start =>
      exact ⟨(new_game_spec s0 d hb hd hd').1, (new_game_spec s0 d hb hd hd').2.1,
        new_game_singleEmpty s0 d hb hd hd'⟩
    | step s t _ ih =>
      obtain ⟨g, e, se⟩ := ih
      obtain ⟨g', e', se'⟩ := move_preserves s t g se
      exact ⟨g', e'.trans e, se'⟩
  obtain ⟨-, e, se⟩ := key
  subst e
  exact ⟨rfl, se⟩

theorem single_empty_invariant_witness :
    (move (new_game fresh 3) 3).2.dim = 3 ∧
    (∃ i, 0 ≤ i ∧ i < (3 : Int) * 3 ∧
      (cell (move (new_game fresh 3) 3).2 i = EMPTY_SPACE ∧
        ∀ j, 0 ≤ j → j < (3 : Int) * 3 →
          cell (move (new_game fresh 3) 3).2 j = EMPTY_SPACE → j = i)) ∧
    0 ≤ (move (new_game fresh 3) 3).2.empty_tile_index ∧
    (move (new_game fresh 3) 3).2.empty_tile_index < (3 : Int) * 3 ∧
    cell (move (new_game fresh 3) 3).2 (move (new_game fresh 3) 3).2.empty_tile_index =
      EMPTY_SPACE :=
  single_empty_invariant fresh 3 (by decide) (by decide) (by decide) _
    (Reachable.step _ 3 Reachable.start)

/-- C2: in a state with `dim` in `[2,10]` whose cells hold each tile once and
the empty space once at `e = empty_tile_index`, if `move(t)` returns true and
`p` is the index tile `t` had before the call, then afterwards cell `p` holds
the empty space, cell `e` holds `t`, every other cell is unchanged, `dim` is
unchanged and `empty_tile_index` is `p`. -/
theorem move_success_effect (s : State) (t p : Int) (hg : Globals s)
    (hperm : TilesOnce s) (hm : (move s t).1 = true)
    (hp : 0 ≤ p ∧ p < s.dim * s.dim ∧ cell s p = t) :
    cell (move s t).2 p = EMPTY_SPACE ∧
    cell (move s t).2 s.empty_tile_index = t ∧
    (∀ k, 0 ≤ k → k < s.dim * s.dim → k ≠ p → k ≠ s.empty_tile_index →
      cell (move s t).2 k = cell s k) ∧
    (move s t).2.dim = s.dim ∧
    (move s t).2.empty_tile_index = p := by
  have hv : valid_move s t = true := by
    by_contra c
    have c' : valid_move s t = false := by simpa using c
    rw [move_invalid s t c'] at hm
    cases hm
  have hn : s.num_tiles = s.dim * s.dim := hg.2.2.1
  obtain ⟨htiles, he⟩ := hperm
  have he2 : 0 ≤ s.empty_tile_index ∧ s.empty_tile_index < s.num_tiles := by
    rw [hn]; exact ⟨he.2.1, he.2.2.1⟩
  have hq := ((valid_move_iff s t).1 hv).1
  obtain ⟨t1, t2, t3, -⟩ := tile_at_index s t hq
  obtain ⟨-, -, m3, -, m5, m6⟩ := move_spec_valid s t hg he2 hv
  have hpq : p = get_index s t := by
    obtain ⟨i, -, -, -, hu⟩ := htiles t t1 (by rw [← hn]; exact t2)
    rw [hu p hp.1 hp.2.1 hp.2.2, hu _ hq.1 (by rw [← hn]; exact hq.2) t3]
  have hce : cell s s.empty_tile_index = EMPTY_SPACE := he.2.2.2
  have hne : p ≠ s.empty_tile_index := by
    intro e
    rw [← hp.2.2, e, hce] at t1
    unfold EMPTY_SPACE at t1
    omega
  rw [← hpq] at m5 m6
  refine ⟨?_, ?_, ?_, m3, m5⟩
  · rw [m6 p hp.1 (by rw [hn]; exact hp.2.1), if_neg hne, if_pos rfl]; exact hce
  · rw [m6 _ he2.1 he2.2, if_pos rfl]; exact hp.2.2
  · intro k hk hk' k1 k2
    rw [m6 k hk (by rw [hn]; exact hk'), if_neg k2, if_neg k1]

theorem move_success_effect_witness :
    cell (move (new_game fresh 2) 2).2 2 = EMPTY_SPACE ∧
    cell (move (new_game fresh 2) 2).2 (new_game fresh 2).empty_tile_index = 2 ∧
    (∀ k, 0 ≤ k → k < (new_game fresh 2).dim * (new_game fresh 2).dim → k ≠ 2 →
      k ≠ (new_game fresh 2).empty_tile_index →
      cell (move (new_game fresh 2) 2).2 k = cell (new_game fresh 2) k) ∧
    (move (new_game fresh 2) 2).2.dim = (new_game fresh 2).dim ∧
    (move (new_game fresh 2) 2).2.empty_tile_index = 2 :=
  move_success_effect (new_game fresh 2) 2 2 (by decide) (by decide) (by decide)
    (by decide)

/-- C3: in a state with `dim` in `[2,10]` in which `e = empty_tile_index` is
the index of the single empty cell, `move(t)` returns true if and only if
`1 <= t <= dim*dim-1`, `t` occurs on the board, and the index returned by
`get_index(t)` is `e - dim`, `e + dim`, `e - 1` or `e + 1`. -/
theorem move_true_iff (s : State) (t : Int) (hg : Globals s) (he : SingleEmpty s) :
    (move s t).1 = true ↔
      1 ≤ t ∧ t ≤ s.dim * s.dim - 1 ∧
      (∃ i, 0 ≤ i ∧ i < s.dim * s.dim ∧ cell s i = t) ∧
      (get_index s t = s.empty_tile_index - s.dim ∨
        get_index s t = s.empty_tile_index + s.dim ∨
        get_index s t = s.empty_tile_index - 1 ∨
        get_index s t = s.empty_tile_index + 1) := by
  have hn : s.num_tiles = s.dim * s.dim := hg.2.2.1
  have hnt := num_tiles_le s hg
  have he2 : 0 ≤ s.empty_tile_index ∧ s.empty_tile_index < s.num_tiles := by
    rw [hn]; exact ⟨he.2.1, he.2.2.1⟩
  have h32 : IsInt32 s.empty_tile_index := ⟨by omega, by omega⟩
  constructor
  · intro hm
    have hv : valid_move s t = true := by
      by_contra c
      have c' : valid_move s t = false := by simpa using c
      rw [move_invalid s t c'] at hm
      cases hm
    obtain ⟨hq, hnear⟩ := (valid_move_iff_plain s t hg h32).1 hv
    obtain ⟨t1, t2, t3, -⟩ := tile_at_index s t hq
    exact ⟨t1, by omega, ⟨_, hq.1, by rw [← hn]; exact hq.2, t3⟩, hnear⟩
  · rintro ⟨t1, t2, ⟨i, hi, hi', hci⟩, hnear⟩
    have hq : 0 ≤ get_index s t ∧ get_index s t < s.num_tiles := by
      rcases get_index_spec s t with ⟨-, h | h | h⟩ | ⟨-, -, h1, h2, -, -⟩
      · omega
      · omega
      · exact absurd hci (h i hi (by rw [hn]; exact hi'))
      · exact ⟨h1, h2⟩
    have hv : valid_move s t = true := (valid_move_iff_plain s t hg h32).2 ⟨hq, hnear⟩
    exact (move_spec_valid s t hg he2 hv).1

theorem move_true_iff_witness :
    (move (new_game fresh 3) 3).1 = true ↔
      1 ≤ (3 : Int) ∧ (3 : Int) ≤ (new_game fresh 3).dim * (new_game fresh 3).dim - 1 ∧
      (∃ i, 0 ≤ i ∧ i < (new_game fresh 3).dim * (new_game fresh 3).dim ∧
        cell (new_game fresh 3) i = 3) ∧
      (get_index (new_game fresh 3) 3 =
          (new_game fresh 3).empty_tile_index - (new_game fresh 3).dim ∨
        get_index (new_game fresh 3) 3 =
          (new_game fresh 3).empty_tile_index + (new_game fresh 3).dim ∨
        get_index (new_game fresh 3) 3 = (new_game fresh 3).empty_tile_index - 1 ∨
        get_index (new_game fresh 3) 3 = (new_game fresh 3).empty_tile_index + 1) :=
  move_true_iff (new_game fresh 3) 3 (by decide) (by decide)

/-- C4: in a state with `dim` in `[2,10]`, when `t` is outside
`[1, dim*dim-1]`, or is absent from the board, or its index is none of
`e-dim`, `e+dim`, `e-1`, `e+1` (`e = empty_tile_index`), `move(t)` returns
false and leaves the board, `dim` and `empty_tile_index` (the whole state)
unchanged; for example `move(99)` on a 3x3 board. -/
theorem illegal_move_noop (s : State) (t : Int) (hg : Globals s)
    (h32 : IsInt32 s.empty_tile_index)
    (h : (t < 1 ∨ s.dim * s.dim - 1 < t) ∨
      (∀ i, 0 ≤ i → i < s.dim * s.dim → cell s i ≠ t) ∨
      (get_index s t ≠ s.empty_tile_index - s.dim ∧
        get_index s t ≠ s.empty_tile_index + s.dim ∧
        get_index s t ≠ s.empty_tile_index - 1 ∧
        get_index s t ≠ s.empty_tile_index + 1)) :
    move s t = (false, s) := by
  apply move_invalid
  have hn : s.num_tiles = s.dim * s.dim := hg.2.2.1
  by_contra c
  have hv : valid_move s t = true := by simpa using c
  obtain ⟨hq, hnear⟩ := (valid_move_iff_plain s t hg h32).1 hv
  obtain ⟨t1, t2, t3, -⟩ := tile_at_index s t hq
  rcases h with h | h | h
  · omega
  · exact h _ hq.1 (by rw [← hn]; exact hq.2) t3
  · tauto

theorem illegal_move_noop_witness :
    move (new_game fresh 3) 99 = (false, new_game fresh 3) :=
  illegal_move_noop (new_game fresh 3) 99 (by decide) (by decide)
    (Or.inl (Or.inr (by decide)))

/-- C5: in a state with `dim` in `[2,10]` whose cells hold each tile once and
the empty space once at `e = empty_tile_index`, if `move(t)` returns true,
then the tile now at index `e` is `t`, an immediately following move of that
tile also returns true, and the resulting state is the state before the first
move (same board, same `empty_tile_index`). -/
theorem move_reversible (s : State) (t : Int) (hg : Globals s) (hperm : TilesOnce s)
    (hm : (move s t).1 = true) :
    cell (move s t).2 s.empty_tile_index = t ∧
    (move (move s t).2 (cell (move s t).2 s.empty_tile_index)).1 = true ∧
    (move (move s t).2 (cell (move s t).2 s.empty_tile_index)).2.board = s.board ∧
    (move (move s t).2 (cell (move s t).2 s.empty_tile_index)).2.empty_tile_index =
      s.empty_tile_index ∧
    (move (move s t).2 (cell (move s t).2 s.empty_tile_index)).2 = s := by
  have hv : valid_move s t = true := by
    by_contra c
    have c' : valid_move s t = false := by simpa using c
    rw [move_invalid s t c'] at hm
    cases hm
  obtain ⟨h1, h2⟩ := move_back s t hg hperm hv
  rw [h1, h2]
  exact ⟨rfl, rfl, rfl, rfl, rfl⟩

theorem move_reversible_witness :
    cell (move (new_game fresh 3) 3).2 (new_game fresh 3).empty_tile_index = 3 ∧
    (move (move (new_game fresh 3) 3).2
      (cell (move (new_game fresh 3) 3).2 (new_game fresh 3).empty_tile_index)).1 = true ∧
    (move (move (new_game fresh 3) 3).2
      (cell (move (new_game fresh 3) 3).2 (new_game fresh 3).empty_tile_index)).2.board =
      (new_game fresh 3).board ∧
    (move (move (new_game fresh 3) 3).2
      (cell (move (new_game fresh 3) 3).2
        (new_game fresh 3).empty_tile_index)).2.empty_tile_index =
      (new_game fresh 3).empty_tile_index ∧
    (move (move (new_game fresh 3) 3).2
      (cell (move (new_game fresh 3) 3).2 (new_game fresh 3).empty_tile_index)).2 =
      new_game fresh 3 :=
  move_reversible (new_game fresh 3) 3 (by decide) (by decide) (by decide)

/-- C6: for `dim` in `[2,10]` and any board content, with `num_tiles`,
`last_row` and `last_col` derived from `dim` as in `init_globals`, `won()`
returns true if and only if the cell at linear index `dim*dim-1` holds the
empty space and every cell `i` in `[0, dim*dim-1)` holds `i+1`. -/
theorem won_iff_sorted (s : State) (hg : Globals s) :
    won s = true ↔
      cell s (s.dim * s.dim - 1) = EMPTY_SPACE ∧
      ∀ i, 0 ≤ i → i < s.dim * s.dim - 1 → cell s i = i + 1 := by
  have hnt := num_tiles_le s hg
  obtain ⟨hd, hd', hn, hr, hc, -⟩ := hg
  have hd2 : (2 : Int) ≤ s.dim := hd
  have hd10 : s.dim ≤ (10 : Int) := hd'
  have hlast : board_get s.board s.last_row s.last_col = cell s (s.dim * s.dim - 1) := by
    unfold cell get_row get_col
    rw [hr, hc, hn, tmod_last hd2 hd10]
  have hcount : (((s.num_tiles - 1).toNat : Nat) : Int) = s.dim * s.dim - 1 := by omega
  unfold won
  rw [hlast]
  by_cases h : cell s (s.dim * s.dim - 1) = EMPTY_SPACE
  · rw [if_neg (not_not.2 h), won_loop_spec s _ 0, hcount]
    constructor
    · intro h'
      exact ⟨h, fun i hi hi' => h' i hi (by omega)⟩
    · rintro ⟨-, h'⟩ i hi hi'
      exact h' i hi (by omega)
  · rw [if_pos h]
    constructor
    · intro h'; cases h'
    · rintro ⟨h', -⟩; exact absurd h' h

theorem won_iff_sorted_witness :
    (won solved3 = true ↔
      cell solved3 (solved3.dim * solved3.dim - 1) = EMPTY_SPACE ∧
      ∀ i, 0 ≤ i → i < solved3.dim * solved3.dim - 1 → cell solved3 i = i + 1) ∧
    cells solved3 = [1, 2, 3, 4, 5, 6, 7, 8, EMPTY_SPACE] ∧ won solved3 = true :=
  ⟨won_iff_sorted solved3 (by decide), by decide, by decide⟩

/-- C7 (evaluation at the failing input): a 3x3 game is saved and the file is
loaded by a freshly started process; `dim` is restored, but cell 3
(`board[1][0]`), which held tile 5, holds 0. -/
theorem save_load_loses_rows :
    cell (new_game fresh 3) 3 = 5 ∧
    (load fresh (save (new_game fresh 3))).dim = (new_game fresh 3).dim ∧
    (load fresh (save (new_game fresh 3))).empty_tile_index =
      (new_game fresh 3).empty_tile_index ∧
    cell (load fresh (save (new_game fresh 3))) 3 = 0 ∧
    cells (load fresh (save (new_game fresh 3))) = [8, 7, 6, 0, 0, 0, 0, 0, 0] := by
  decide

/-- C8 (evaluation at the failing input): for a new 3x3 game `save` writes
`3, 8` and then the first nine ints of the array's memory, `8 7 6 0 0 0 0 0 0`,
while the nine cells in row-major order are `8 7 6 5 4 3 2 1 EMPTY`. -/
theorem save_writes_memory_start :
    save (new_game fresh 3) = [3, 8, 8, 7, 6, 0, 0, 0, 0, 0, 0] ∧
    cells (new_game fresh 3) = [8, 7, 6, 5, 4, 3, 2, 1, EMPTY_SPACE] := by
  decide

/-- C9: for odd `dim` in `[2,10]`, after `init_globals` and `init` the cell
at linear index `i` holds `dim*dim-1-i` for every `i` in `[0, dim*dim-1)` and
the cell at index `dim*dim-1` holds the empty space; for `dim = 3` the board
in row-major order is `[8,7,6,5,4,3,2,1,EMPTY]`. -/
theorem init_odd_descending (s0 : State) (d : Int) (hb : s0.board.length = 100)
    (hd : 2 ≤ d) (hd' : d ≤ 10) (hodd : d % 2 = 1) :
    (∀ i, 0 ≤ i → i < d * d - 1 → cell (new_game s0 d) i = d * d - 1 - i) ∧
    cell (new_game s0 d) (d * d - 1) = EMPTY_SPACE ∧
    (d = 3 → cells (new_game s0 d) = [8, 7, 6, 5, 4, 3, 2, 1, EMPTY_SPACE]) := by
  obtain ⟨-, n1, -, n3⟩ := new_game_spec s0 d hb hd hd'
  have hpar : ¬ Int.tmod d 2 = 0 := by
    rw [Int.tmod_eq_emod (by omega) (by omega)]; omega
  have hsq : 4 ≤ d * d := by nlinarith
  have h1 : ∀ i, 0 ≤ i → i < d * d - 1 → cell (new_game s0 d) i = d * d - 1 - i := by
    intro i hi hi'
    rw [n3 i hi (by omega), if_neg (by omega), if_neg (fun h => hpar h.1),
      if_neg (fun h => hpar h.1)]
  have h2 : cell (new_game s0 d) (d * d - 1) = EMPTY_SPACE := by
    rw [n3 _ (by omega) (by omega), if_pos rfl]
  refine ⟨h1, h2, ?_⟩
  intro e
  subst e
  have hr : List.range 9 = [0, 1, 2, 3, 4, 5, 6, 7, 8] := by decide
  have hc : ((3 : Int) * 3).toNat = 9 := by decide
  unfold cells
  rw [n1, hc, hr]
  simp only [List.map]
  have h2' : cell (new_game s0 3) 8 = EMPTY_SPACE := h2
  rw [show ((0 : Nat) : Int) = 0 from rfl, show ((1 : Nat) : Int) = 1 from rfl,
    show ((2 : Nat) : Int) = 2 from rfl, show ((3 : Nat) : Int) = 3 from rfl,
    show ((4 : Nat) : Int) = 4 from rfl, show ((5 : Nat) : Int) = 5 from rfl,
    show ((6 : Nat) : Int) = 6 from rfl, show ((7 : Nat) : Int) = 7 from rfl,
    show ((8 : Nat) : Int) = 8 from rfl,
    h1 0 (by decide) (by decide), h1 1 (by decide) (by decide), h1 2 (by decide) (by decide),
    h1 3 (by decide) (by decide), h1 4 (by decide) (by decide), h1 5 (by decide) (by decide),
    h1 6 (by decide) (by decide), h1 7 (by decide) (by decide), h2']
  rfl

theorem init_odd_descending_witness :
    (∀ i, 0 ≤ i → i < (3 : Int) * 3 - 1 → cell (new_game fresh 3) i = 3 * 3 - 1 - i) ∧
    cell (new_game fresh 3) (3 * 3 - 1) = EMPTY_SPACE ∧
    ((3 : Int) = 3 → cells (new_game fresh 3) = [8, 7, 6, 5, 4, 3, 2, 1, EMPTY_SPACE]) :=
  init_odd_descending fresh 3 (by decide) (by decide) (by decide) (by decide)

/-- C10: for even `dim` in `[2,10]`, after `init_globals` and `init` the cell
at linear index `i` holds `dim*dim-1-i` for every `i` in `[0, dim*dim-3)`, the
cell at index `dim*dim-3` holds 1, the cell at index `dim*dim-2` holds 2, and
the cell at index `dim*dim-1` holds the empty space; for `dim = 4` the board
is `[15,14,13,12,11,10,9,8,7,6,5,4,3,1,2,EMPTY]`. -/
theorem init_even_exchange (s0 : State) (d : Int) (hb : s0.board.length = 100)
    (hd : 2 ≤ d) (hd' : d ≤ 10) (hev : d % 2 = 0) :
    (∀ i, 0 ≤ i → i < d * d - 3 → cell (new_game s0 d) i = d * d - 1 - i) ∧
    cell (new_game s0 d) (d * d - 3) = 1 ∧
    cell (new_game s0 d) (d * d - 2) = 2 ∧
    cell (new_game s0 d) (d * d - 1) = EMPTY_SPACE ∧
    (d = 4 → cells (new_game s0 d) =
      [15, 14, 13, 12, 11, 10, 9, 8, 7, 6, 5, 4, 3, 1, 2, EMPTY_SPACE]) := by
  obtain ⟨-, n1, -, n3⟩ := new_game_spec s0 d hb hd hd'
  have hpar : Int.tmod d 2 = 0 := by
    rw [Int.tmod_eq_emod (by omega) (by omega)]; exact hev
  have hsq : 4 ≤ d * d := by nlinarith
  have h1 : ∀ i, 0 ≤ i → i < d * d - 3 → cell (new_game s0 d) i = d * d - 1 - i := by
    intro i hi hi'
    rw [n3 i hi (by omega), if_neg (by omega), if_neg (fun h => by omega),
      if_neg (fun h => by omega)]
  have h2 : cell (new_game s0 d) (d * d - 3) = 1 := by
    rw [n3 _ (by omega) (by omega), if_neg (by omega), if_neg (fun h => by omega),
      if_pos ⟨hpar, rfl⟩]
  have h3 : cell (new_game s0 d) (d * d - 2) = 2 := by
    rw [n3 _ (by omega) (by omega), if_neg (by omega), if_pos ⟨hpar, rfl⟩]
  have h4 : cell (new_game s0 d) (d * d - 1) = EMPTY_SPACE := by
    rw [n3 _ (by omega) (by omega), if_pos rfl]
  refine ⟨h1, h2, h3, h4, ?_⟩
  intro e
  subst e
  have hr : List.range 16 = [0, 1, 2, 3, 4, 5, 6, 7, 8, 9, 10, 11, 12, 13, 14, 15] := by
    decide
  have hc : ((4 : Int) * 4).toNat = 16 := by decide
  unfold cells
  rw [n1, hc, hr]
  simp only [List.map]
  have h2' : cell (new_game s0 4) 13 = 1 := h2
  have h3' : cell (new_game s0 4) 14 = 2 := h3
  have h4' : cell (new_game s0 4) 15 = EMPTY_SPACE := h4
  rw [show ((0 : Nat) : Int) = 0 from rfl, show ((1 : Nat) : Int) = 1 from rfl,
    show ((2 : Nat) : Int) = 2 from rfl, show ((3 : Nat) : Int) = 3 from rfl,
    show ((4 : Nat) : Int) = 4 from rfl, show ((5 : Nat) : Int) = 5 from rfl,
    show ((6 : Nat) : Int) = 6 from rfl, show ((7 : Nat) : Int) = 7 from rfl,
    show ((8 : Nat) : Int) = 8 from rfl, show ((9 : Nat) : Int) = 9 from rfl,
    show ((10 : Nat) : Int) = 10 from rfl, show ((11 : Nat) : Int) = 11 from rfl,
    show ((12 : Nat) : Int) = 12 from rfl, show ((13 : Nat) : Int) = 13 from rfl,
    show ((14 : Nat) : Int) = 14 from rfl, show ((15 : Nat) : Int) = 15 from rfl,
    h1 0 (by decide) (by decide), h1 1 (by decide) (by decide), h1 2 (by decide) (by decide),
    h1 3 (by decide) (by decide), h1 4 (by decide) (by decide), h1 5 (by decide) (by decide),
    h1 6 (by decide) (by decide), h1 7 (by decide) (by decide), h1 8 (by decide) (by decide),
    h1 9 (by decide) (by decide), h1 10 (by decide) (by decide),
    h1 11 (by decide) (by decide), h1 12 (by decide) (by decide), h2', h3', h4']
  rfl

theorem init_even_exchange_witness :
    (∀ i, 0 ≤ i → i < (4 : Int) * 4 - 3 → cell (new_game fresh 4) i = 4 * 4 - 1 - i) ∧
    cell (new_game fresh 4) (4 * 4 - 3) = 1 ∧
    cell (new_game fresh 4) (4 * 4 - 2) = 2 ∧
    cell (new_game fresh 4) (4 * 4 - 1) = EMPTY_SPACE ∧
    ((4 : Int) = 4 → cells (new_game fresh 4) =
      [15, 14, 13, 12, 11, 10, 9, 8, 7, 6, 5, 4, 3, 1, 2, EMPTY_SPACE]) :=
  init_even_exchange fresh 4 (by decide) (by decide) (by decide) (by decide)

/-- C11 (as stated, refuted): on the 4x4 board `init` leaves 14 in cell 1,
where the descending fill with the cells holding `dim*dim-2 = 14` and
`dim*dim-3 = 13` exchanged would have 13. -/
theorem init_even_not_exchanged_by_value :
    cell (new_game fresh 4) 1 = 14 ∧ exchanged_by_value 4 1 = 13 ∧
    ¬ ∀ i, 0 ≤ i → i < (4 : Int) * 4 →
      cell (new_game fresh 4) i = exchanged_by_value 4 i := by
  decide

/-- C11 (amended): for every even `dim` in `[2,10]`, the board produced by
`init` is the descending fill (cell `i` holds `dim*dim-1-i`) in which the two
cells at the linear indices `dim*dim-2` and `dim*dim-3` (which hold the
values 1 and 2) have been exchanged with each other, followed by setting the
last cell to the empty space. -/
theorem init_even_exchanged_by_index (s0 : State) (d : Int)
    (hb : s0.board.length = 100) (hd : 2 ≤ d) (hd' : d ≤ 10) (hev : d % 2 = 0) :
    descending d (d * d - 2) = 1 ∧ descending d (d * d - 3) = 2 ∧
    ∀ i, 0 ≤ i → i < d * d → cell (new_game s0 d) i = exchanged_by_index d i := by
  have hpar : Int.tmod d 2 = 0 := by
    rw [Int.tmod_eq_emod (by omega) (by omega)]; exact hev
  refine ⟨by unfold descending; omega, by unfold descending; omega, ?_⟩
  intro i hi hi'
  rw [new_game_cell s0 d hb hd hd' hi hi']
  unfold init_value exchanged_by_index descending
  by_cases c1 : i = d * d - 1
  · rw [if_pos c1, if_pos c1]
  · rw [if_neg c1, if_neg c1]
    by_cases c2 : i = d * d - 2
    · rw [if_pos ⟨hpar, c2⟩, if_pos c2]; omega
    · rw [if_neg (fun h => c2 h.2), if_neg c2]
      by_cases c3 : i = d * d - 3
      · rw [if_pos ⟨hpar, c3⟩, if_pos c3]; omega
      · rw [if_neg (fun h => c3 h.2), if_neg c3]

theorem init_even_exchanged_by_index_witness :
    descending 4 (4 * 4 - 2) = 1 ∧ descending 4 (4 * 4 - 3) = 2 ∧
    ∀ i, 0 ≤ i → i < (4 : Int) * 4 →
      cell (new_game fresh 4) i = exchanged_by_index 4 i :=
  init_even_exchanged_by_index fresh 4 (by decide) (by decide) (by decide) (by decide)

/-- C14: in a state with `dim` in `[2,10]`, for all integers `i1`, `i2`:
`swap(i1, i2)` returns false exactly when `i1` or `i2` is outside
`[0, dim*dim)`, and then the state is unchanged; otherwise it returns true,
cell `i1` afterwards holds the former value of cell `i2` and vice versa, and
every other cell is unchanged. -/
theorem swap_contract (s : State) (i1 i2 : Int) (hg : Globals s) :
    ((swap s i1 i2).1 = false ↔
      (i1 < 0 ∨ s.dim * s.dim ≤ i1 ∨ i2 < 0 ∨ s.dim * s.dim ≤ i2)) ∧
    ((swap s i1 i2).1 = false → (swap s i1 i2).2 = s) ∧
    ((swap s i1 i2).1 = true →
      cell (swap s i1 i2).2 i1 = cell s i2 ∧
      cell (swap s i1 i2).2 i2 = cell s i1 ∧
      ∀ k, 0 ≤ k → k < s.dim * s.dim → k ≠ i1 → k ≠ i2 →
        cell (swap s i1 i2).2 k = cell s k) := by
  have hn : s.num_tiles = s.dim * s.dim := hg.2.2.1
  by_cases hv : (0 ≤ i1 ∧ i1 < s.num_tiles) ∧ (0 ≤ i2 ∧ i2 < s.num_tiles)
  · obtain ⟨h1, h2⟩ := hv
    have hc := fun k hk => cell_swap s i1 i2 k hg h1 h2 hk
    have ht : (swap s i1 i2).1 = true := by rw [swap_valid s i1 i2 hg h1 h2]
    rw [hn] at h1 h2
    refine ⟨?_, ?_, ?_⟩
    · rw [ht]
      constructor
      · intro h; cases h
      · intro h; omega
    · rw [ht]; intro h; cases h
    · intro _
      refine ⟨?_, ?_, ?_⟩
      · rw [hc i1 (by rw [hn]; exact h1)]
        by_cases e : i1 = i2
        · rw [if_pos e, e]
        · rw [if_neg e, if_pos rfl]
      · rw [hc i2 (by rw [hn]; exact h2), if_pos rfl]
      · intro k hk hk' k1 k2
        rw [hc k (by rw [hn]; exact ⟨hk, hk'⟩), if_neg k2, if_neg k1]
  · have hinv : ¬ (0 ≤ i1 ∧ i1 < s.num_tiles) ∨ ¬ (0 ≤ i2 ∧ i2 < s.num_tiles) := by
      by_contra c
      push_neg at c
      exact hv ⟨⟨c.1.1, c.1.2⟩, ⟨c.2.1, c.2.2⟩⟩
    rw [swap_invalid s i1 i2 hinv]
    rw [hn] at hinv
    refine ⟨?_, ?_, ?_⟩
    · constructor
      · intro _; omega
      · intro _; rfl
    · intro _; rfl
    · intro h; cases h

theorem swap_contract_witness :
    ((swap (new_game fresh 3) 7 8).1 = false ↔
      ((7 : Int) < 0 ∨ (new_game fresh 3).dim * (new_game fresh 3).dim ≤ 7 ∨
        (8 : Int) < 0 ∨ (new_game fresh 3).dim * (new_game fresh 3).dim ≤ 8)) ∧
    ((swap (new_game fresh 3) 7 8).1 = false →
      (swap (new_game fresh 3) 7 8).2 = new_game fresh 3) ∧
    ((swap (new_game fresh 3) 7 8).1 = true →
      cell (swap (new_game fresh 3) 7 8).2 7 = cell (new_game fresh 3) 8 ∧
      cell (swap (new_game fresh 3) 7 8).2 8 = cell (new_game fresh 3) 7 ∧
      ∀ k, 0 ≤ k → k < (new_game fresh 3).dim * (new_game fresh 3).dim → k ≠ 7 → k ≠ 8 →
        cell (swap (new_game fresh 3) 7 8).2 k = cell (new_game fresh 3) k) :=
  swap_contract (new_game fresh 3) 7 8 (by decide)

/-- C15: in a state with `dim` in `[2,10]`, for every integer `t`:
`get_index(t)` returns `-1` if and only if `t` is outside `[1, dim*dim-1]` or
no cell with linear index in `[0, dim*dim)` holds `t`; otherwise it returns
the smallest linear index in `[0, dim*dim)` whose cell holds `t`. -/
theorem get_index_contract (s : State) (t : Int) (hg : Globals s) :
    (get_index s t = -1 ↔
      (t < 1 ∨ s.dim * s.dim - 1 < t ∨
        ∀ i, 0 ≤ i → i < s.dim * s.dim → cell s i ≠ t)) ∧
    (get_index s t ≠ -1 →
      0 ≤ get_index s t ∧ get_index s t < s.dim * s.dim ∧
      cell s (get_index s t) = t ∧
      ∀ k, 0 ≤ k → k < s.dim * s.dim → cell s k = t → get_index s t ≤ k) := by
  have hn : s.num_tiles = s.dim * s.dim := hg.2.2.1
  rcases get_index_spec s t with ⟨h1, h2⟩ | ⟨h1, h2, h3, h4, h5, h6⟩
  · rw [hn] at h2
    refine ⟨⟨fun _ => ?_, fun _ => h1⟩, fun h => absurd h1 h⟩
    rcases h2 with h | h | h
    · left; omega
    · right; left; omega
    · right; right; exact h
  · rw [hn] at h2 h4
    refine ⟨⟨fun h => by omega, ?_⟩, fun _ => ⟨h3, h4, h5, ?_⟩⟩
    · rintro (h | h | h)
      · omega
      · omega
      · exact absurd h5 (h _ h3 h4)
    · intro k hk _ hck
      by_contra c
      exact h6 k hk (by omega) hck

theorem get_index_contract_witness :
    (get_index (new_game fresh 3) 3 = -1 ↔
      ((3 : Int) < 1 ∨ (new_game fresh 3).dim * (new_game fresh 3).dim - 1 < 3 ∨
        ∀ i, 0 ≤ i → i < (new_game fresh 3).dim * (new_game fresh 3).dim →
          cell (new_game fresh 3) i ≠ 3)) ∧
    (get_index (new_game fresh 3) 3 ≠ -1 →
      0 ≤ get_index (new_game fresh 3) 3 ∧
      get_index (new_game fresh 3) 3 < (new_game fresh 3).dim * (new_game fresh 3).dim ∧
      cell (new_game fresh 3) (get_index (new_game fresh 3) 3) = 3 ∧
      ∀ k, 0 ≤ k → k < (new_game fresh 3).dim * (new_game fresh 3).dim →
        cell (new_game fresh 3) k = 3 → get_index (new_game fresh 3) 3 ≤ k) :=
  get_index_contract (new_game fresh 3) 3 (by decide)

/-- C16: for `dim` in `[2,10]` and a linear index `idx` in `[0, dim*dim)`,
`get_row(idx)` and `get_col(idx)` lie in `[0, dim)` (so `board[row][col]` is
inside the 10 x 10 array), `get_row(idx) * dim + get_col(idx) = idx`,
distinct indices give distinct (row, col) pairs, and every (row, col) pair of
the `dim x dim` grid is the pair of an index. -/
theorem index_row_col_bijection (s : State) (idx : Int) (hd : 2 ≤ s.dim)
    (hd' : s.dim ≤ 10) (hi : 0 ≤ idx) (hi' : idx < s.dim * s.dim) :
    (0 ≤ get_row s idx ∧ get_row s idx < s.dim) ∧
    (0 ≤ get_col s idx ∧ get_col s idx < s.dim) ∧
    (0 ≤ offset (get_row s idx) (get_col s idx) ∧
      offset (get_row s idx) (get_col s idx) < DIM_MAX * DIM_MAX) ∧
    get_row s idx * s.dim + get_col s idx = idx ∧
    (∀ j, 0 ≤ j → j < s.dim * s.dim →
      get_row s j = get_row s idx → get_col s j = get_col s idx → j = idx) ∧
    (∀ r c, 0 ≤ r → r < s.dim → 0 ≤ c → c < s.dim →
      0 ≤ r * s.dim + c ∧ r * s.dim + c < s.dim * s.dim ∧
      get_row s (r * s.dim + c) = r ∧ get_col s (r * s.dim + c) = c) := by
  have hrc := row_col_ediv s hi (by omega)
  rw [hrc.1, hrc.2]
  unfold offset DIM_MAX
  refine ⟨?_, ?_, ?_, ?_, ?_, ?_⟩
  · generalize s.dim = d at *
    interval_cases d <;> omega
  · generalize s.dim = d at *
    interval_cases d <;> omega
  · generalize s.dim = d at *
    interval_cases d <;> omega
  · generalize s.dim = d at *
    interval_cases d <;> omega
  · intro j hj hj'
    have hj2 := row_col_ediv s hj (by omega)
    rw [hj2.1, hj2.2]
    generalize s.dim = d at *
    interval_cases d <;> omega
  · intro r c hr hr' hc hc'
    have hnn : 0 ≤ r * s.dim + c := by
      have : 0 ≤ r * s.dim := Int.mul_nonneg hr (by omega)
      omega
    have h2 := row_col_ediv s hnn (by omega)
    rw [h2.1, h2.2]
    generalize s.dim = d at *
    interval_cases d <;> omega

theorem index_row_col_bijection_witness :
    (0 ≤ get_row (new_game fresh 3) 5 ∧ get_row (new_game fresh 3) 5 < (new_game fresh 3).dim) ∧
    (0 ≤ get_col (new_game fresh 3) 5 ∧ get_col (new_game fresh 3) 5 < (new_game fresh 3).dim) ∧
    (0 ≤ offset (get_row (new_game fresh 3) 5) (get_col (new_game fresh 3) 5) ∧
      offset (get_row (new_game fresh 3) 5) (get_col (new_game fresh 3) 5) <
        DIM_MAX * DIM_MAX) ∧
    get_row (new_game fresh 3) 5 * (new_game fresh 3).dim + get_col (new_game fresh 3) 5 = 5 ∧
    (∀ j, 0 ≤ j → j < (new_game fresh 3).dim * (new_game fresh 3).dim →
      get_row (new_game fresh 3) j = get_row (new_game fresh 3) 5 →
      get_col (new_game fresh 3) j = get_col (new_game fresh 3) 5 → j = 5) ∧
    (∀ r c, 0 ≤ r → r < (new_game fresh 3).dim → 0 ≤ c → c < (new_game fresh 3).dim →
      0 ≤ r * (new_game fresh 3).dim + c ∧
      r * (new_game fresh 3).dim + c < (new_game fresh 3).dim * (new_game fresh 3).dim ∧
      get_row (new_game fresh 3) (r * (new_game fresh 3).dim + c) = r ∧
      get_col (new_game fresh 3) (r * (new_game fresh 3).dim + c) = c) :=
  index_row_col_bijection (new_game fresh 3) 5 (by decide) (by decide) (by decide)
    (by decide)

/-- C17: cross-row wraparound is accepted.  With `dim = 3`, after `init` and
the legal `move(3)` the empty space is at index 5 (row 1, column 2); tile 2
is at index 6 (row 2, column 0), in neither the same row nor the same column;
`move(2)` returns true and leaves the board `[8,7,6,5,4,2,EMPTY,1,3]` with
`empty_tile_index = 6`. -/
theorem wraparound_accepted :
    Reachable fresh 3 (move (new_game fresh 3) 3).2 ∧
    (move (new_game fresh 3) 3).1 = true ∧
    borders (new_game fresh 3) (get_index (new_game fresh 3) 3)
      (new_game fresh 3).empty_tile_index ∧
    (move (new_game fresh 3) 3).2.empty_tile_index = 5 ∧
    get_row (move (new_game fresh 3) 3).2 5 = 1 ∧
    get_col (move (new_game fresh 3) 3).2 5 = 2 ∧
    get_index (move (new_game fresh 3) 3).2 2 = 6 ∧
    get_row (move (new_game fresh 3) 3).2 6 = 2 ∧
    get_col (move (new_game fresh 3) 3).2 6 = 0 ∧
    (move (move (new_game fresh 3) 3).2 2).1 = true ∧
    cells (move (move (new_game fresh 3) 3).2 2).2 = [8, 7, 6, 5, 4, 2, EMPTY_SPACE, 1, 3] ∧
    (move (move (new_game fresh 3) 3).2 2).2.empty_tile_index = 6 :=
  ⟨Reachable.step _ 3 Reachable.start, by decide⟩

/-- C13 (evaluation at the failing input): in the 3x3 state reached by `init`
and `move(3)`, which holds each tile once and the empty space once at index
5, tile 2 is at index 6 and does not border the empty space, yet `move(2)`
returns true. -/
theorem move_accepts_non_bordering :
    Globals (move (new_game fresh 3) 3).2 ∧ TilesOnce (move (new_game fresh 3) 3).2 ∧
    (move (new_game fresh 3) 3).2.empty_tile_index = 5 ∧
    cell (move (new_game fresh 3) 3).2 6 = 2 ∧
    ¬ borders (move (new_game fresh 3) 3).2 6 5 ∧
    (move (move (new_game fresh 3) 3).2 2).1 = true := by
  decide

/-- C20 (evaluation at the failing input): a file with `dim = 3`,
`empty_tile_index = -1` and tile 8 in the first cell is loaded; `move(8)`
passes `valid_move` (index 0 is `-1 + 1`), `swap` refuses the invalid index,
and `move` returns false after having set `empty_tile_index` to 0.  The board
is unchanged. -/
theorem failed_move_changes_empty_index :
    (load_game fresh [3, -1, 8, 7, 6, 5, 4, 3, 2, 1, -1]).dim = 3 ∧
    (load_game fresh [3, -1, 8, 7, 6, 5, 4, 3, 2, 1, -1]).empty_tile_index = -1 ∧
    valid_move (load_game fresh [3, -1, 8, 7, 6, 5, 4, 3, 2, 1, -1]) 8 = true ∧
    (move (load_game fresh [3, -1, 8, 7, 6, 5, 4, 3, 2, 1, -1]) 8).1 = false ∧
    (move (load_game fresh [3, -1, 8, 7, 6, 5, 4, 3, 2, 1, -1]) 8).2.empty_tile_index =
      0 ∧
    (move (load_game fresh [3, -1, 8, 7, 6, 5, 4, 3, 2, 1, -1]) 8).2.board =
      (load_game fresh [3, -1, 8, 7, 6, 5, 4, 3, 2, 1, -1]).board := by
  decide

/-- C18: for every `dim` in `[2,10]`, `won()` returns false in the state
produced by `init_globals` followed by `init`. -/
theorem new_game_not_won (s0 : State) (d : Int) (hb : s0.board.length = 100)
    (hd : 2 ≤ d) (hd' : d ≤ 10) : won (new_game s0 d) = false := by
  obtain ⟨hg, n1, -, n3⟩ := new_game_spec s0 d hb hd hd'
  have hnt := num_tiles_le _ hg
  have hn : (new_game s0 d).num_tiles = (new_game s0 d).dim * (new_game s0 d).dim :=
    hg.2.2.1
  rw [hn, n1] at hnt
  have h0 : cell (new_game s0 d) 0 = d * d - 1 := by
    rw [n3 0 (le_refl 0) (by omega), if_neg (by omega), if_neg (fun h => by omega),
      if_neg (fun h => by omega)]
    omega
  unfold won
  split
  · rfl
  · by_contra c
    have hw : won_loop (new_game s0 d) ((new_game s0 d).num_tiles - 1).toNat 0 = true := by
      simpa using c
    rw [won_loop_spec] at hw
    have := hw 0 (le_refl 0) (by rw [hn, n1]; omega)
    rw [h0] at this
    omega

theorem new_game_not_won_witness :
    won (new_game fresh 3) = false ∧
    cells (new_game fresh 3) = [8, 7, 6, 5, 4, 3, 2, 1, EMPTY_SPACE] :=
  ⟨new_game_not_won fresh 3 (by decide) (by decide) (by decide), by decide⟩

/-- C12: for every `dim` in `[2,10]`, odd or even, on the board produced by
`init_globals` and `init` the number of inversions (pairs `i < j` in
`[0, dim*dim-1)` with cell `i` greater than cell `j`) among the tiles read in
row-major order is even. -/
theorem init_inversions_even (s0 : State) (d : Int) (hb : s0.board.length = 100)
    (hd : 2 ≤ d) (hd' : d ≤ 10) : inversions (new_game s0 d) % 2 = 0 := by
  have n1 : (new_game s0 d).dim = d := (new_game_spec s0 d hb hd hd').2.1
  have hsq : 4 ≤ d * d := by nlinarith
  unfold inversions
  rw [n1, inversions_of_congr (cell (new_game s0 d)) (init_value d) _
    (fun k hk hk' => new_game_cell s0 d hb hd hd' hk (by omega))]
  interval_cases d <;> decide!

theorem init_inversions_even_witness :
    inversions (new_game fresh 4) % 2 = 0 ∧ inversions (new_game fresh 4) = 104 :=
  ⟨init_inversions_even fresh 4 (by decide) (by decide) (by decide), by decide!⟩

/-- C19: for every `dim` in `[2,10]`, in the state produced by
`init_globals` and `init` and in every state reached from it by any sequence
of calls of `move` (successful or not, wraparound moves included), every tile
value in `[1, dim*dim-1]` occurs in exactly one cell, the empty space occurs
in exactly one cell, and no other value occurs. -/
theorem tiles_permutation_invariant (s0 : State) (d : Int)
    (hb : s0.board.length = 100) (hd : 2 ≤ d) (hd' : d ≤ 10) (s : State)
    (h : Reachable s0 d s) :
    s.dim = d ∧
    (∀ t, 1 ≤ t → t ≤ d * d - 1 →
      ∃ i, 0 ≤ i ∧ i < d * d ∧
        (cell s i = t ∧ ∀ j, 0 ≤ j → j < d * d → cell s j = t → j = i)) ∧
    (∃ i, 0 ≤ i ∧ i < d * d ∧
      (cell s i = EMPTY_SPACE ∧
        ∀ j, 0 ≤ j → j < d * d → cell s j = EMPTY_SPACE → j = i)) ∧
    (∀ i, 0 ≤ i → i < d * d →
      (cell s i = EMPTY_SPACE ∨ (1 ≤ cell s i ∧ cell s i ≤ d * d - 1))) := by
  have key : Globals s ∧ s.dim = d ∧ TilesOnce s ∧ OnlyTiles s := by
    induction h with
    | start =>
      exact ⟨(new_game_spec s0 d hb hd hd').1, (new_game_spec s0 d hb hd hd').2.1,
        new_game_tiles s0 d hb hd hd'⟩
    | step s t _ ih =>
      obtain ⟨g, e, p, v⟩ := ih
      obtain ⟨g', e', -⟩ := move_preserves s t g p.2
      exact ⟨g', e'.trans e, move_preserves_tiles s t g p v⟩
  obtain ⟨-, e, p, v⟩ := key
  subst e
  exact ⟨rfl, fun t h1 h2 => p.1 t h1 (by omega), p.2.1, v⟩

theorem tiles_permutation_invariant_witness :
    (move (move (new_game fresh 3) 3).2 2).2.dim = 3 ∧
    (∀ t, 1 ≤ t → t ≤ (3 : Int) * 3 - 1 →
      ∃ i, 0 ≤ i ∧ i < (3 : Int) * 3 ∧
        (cell (move (move (new_game fresh 3) 3).2 2).2 i = t ∧
          ∀ j, 0 ≤ j → j < (3 : Int) * 3 →
            cell (move (move (new_game fresh 3) 3).2 2).2 j = t → j = i)) ∧
    (∃ i, 0 ≤ i ∧ i < (3 : Int) * 3 ∧
      (cell (move (move (new_game fresh 3) 3).2 2).2 i = EMPTY_SPACE ∧
        ∀ j, 0 ≤ j → j < (3 : Int) * 3 →
          cell (move (move (new_game fresh 3) 3).2 2).2 j = EMPTY_SPACE → j = i)) ∧
    (∀ i, 0 ≤ i → i < (3 : Int) * 3 →
      (cell (move (move (new_game fresh 3) 3).2 2).2 i = EMPTY_SPACE ∨
        (1 ≤ cell (move (move (new_game fresh 3) 3).2 2).2 i ∧
          cell (move (move (new_game fresh 3) 3).2 2).2 i ≤ 3 * 3 - 1))) :=
  tiles_permutation_invariant fresh 3 (by decide) (by decide) (by decide) _
    (Reachable.step _ 2 (Reachable.step _ 3 Reachable.start))

end SlidingPuzzle
